import Mathlib

/-!
# Process management core of the i386 kernel (`src/proc.c`)

A shallow embedding of the process table, process creation, `fork`, the
scheduler scan and the trap dispatcher of `src/proc.c`, with the properties
of the specification stated and proved over it.

Conventions of the embedding.

* Machine words are natural numbers; pointer arithmetic is reduced modulo
  `2^32 = 4294967296` exactly where the C code computes on 32-bit values.
* Kernel memory is a byte map.  Multi-byte objects are little endian (i386).
* The process table `procs`, the task-state field `esp0` and `currproc` are
  C globals; they are state components of their own and are not part of the
  byte map handed out by the allocator.
* An index into `procs` outside `0 .. MAX_PROC-1` is undefined behaviour in C;
  here it is the fault `Fault.procIndex`.
* Functions of other translation units (`halloc`, `setup_user`,
  `copy_user_space`, `swtch`, the device handlers, the syscall layer) are
  parameters collected in `Env` or definitions modelled from the spec and marked so.
-/

namespace Kernel

/-! ## Memory -/

/-- Byte-addressed memory: the byte stored at each address. -/
abbrev Mem := Nat → Nat

/-- Subtraction on 32-bit words (`sp -= n` on a pointer). -/
def sub32 (a n : Nat) : Nat := (a % 4294967296 + 4294967296 - n % 4294967296) % 4294967296

/-- Addition on 32-bit words. -/
def add32 (a n : Nat) : Nat := (a + n) % 4294967296

/-- How far address `x` lies above address `a`, going upwards modulo `2^32`. -/
def offsetFrom (a x : Nat) : Nat := sub32 x a

/-- Little-endian store of the low `w` bytes of `v` at address `a`. -/
def storeLE (m : Mem) (a w v : Nat) : Mem :=
  fun x => if offsetFrom a x < w then v / 256 ^ offsetFrom a x % 256 else m x

/-- Little-endian load of `w` bytes at address `a`. -/
def loadLE (m : Mem) (a : Nat) : Nat → Nat
  | 0 => 0
  | w + 1 => loadLE m a w + m (add32 a w) * 256 ^ w

/-- The C library `memset(dst, c, n)`. -/
def memset (m : Mem) (dst c n : Nat) : Mem :=
  fun x => if offsetFrom dst x < n then c % 256 else m x

/-- The C library `memcpy(dst, src, n)`; the source bytes are those held before the call. -/
def memcpy (m : Mem) (dst src n : Nat) : Mem :=
  fun x => if offsetFrom dst x < n then m (add32 src (offsetFrom dst x)) else m x

/-! ## Data model -/

/-- Number of entries of the process table (`#define MAX_PROC 10`). -/
abbrev MAX_PROC : Nat := 10

/-- Size of `struct context`: five `uint32_t` registers `edi esi ebx ebp eip`. -/
abbrev CONTEXT_SIZE : Nat := 20

/-- Byte offset of `eip` inside `struct context`. -/
abbrev CONTEXT_EIP : Nat := 16

/-- Modelled from the spec: struct proc of `proc.h`, which is not among the sources.
The flags `used` and `start` are booleans (spec, section 3); the pointers `kstack`,
`tf`, `ctx` and the handle `pgdir` are 32-bit words. -/
structure Proc where
  used : Bool
  start : Bool
  pid : Nat
  kstack : Nat
  tf : Nat
  ctx : Nat
  pgdir : Nat
deriving DecidableEq, Repr

/-- A member of `struct trapframe`: its byte offset and its width in bytes. -/
structure Field where
  off : Nat
  width : Nat
deriving DecidableEq, Repr

/-- Modelled from the spec: struct trapframe of `proc.h`, which is not among the
sources.  Only its size and the members that `proc.c` names are needed; where they
lie is a parameter. -/
structure TfLayout where
  size : Nat
  trapno : Field
  eax : Field
  eip : Field
  cs : Field
  eflags : Field
  esp : Field
  ss : Field
  ds : Field
  es : Field
deriving DecidableEq, Repr

/-- The two members do not share a byte. -/
def Field.disjoint (f g : Field) : Prop := f.off + f.width ≤ g.off ∨ g.off + g.width ≤ f.off

instance (f g : Field) : Decidable (f.disjoint g) := by
  unfold Field.disjoint; exact inferInstance

/-- The member lies inside a structure of `size` bytes and is one to four bytes wide. -/
def Field.within (f : Field) (size : Nat) : Prop := 1 ≤ f.width ∧ f.width ≤ 4 ∧ f.off + f.width ≤ size

instance (f : Field) (n : Nat) : Decidable (f.within n) := by
  unfold Field.within; exact inferInstance

/-- The members written by `setup_init_proc`, in the order of the source. -/
def TfLayout.initFields (L : TfLayout) : List Field :=
  [L.cs, L.ds, L.es, L.ss, L.eflags, L.esp, L.eip]

/-- A layout a C compiler can produce for an i386 trapframe: the members lie inside
the structure, distinct members do not overlap, and the 32-bit registers `eax`,
`eip`, `eflags`, `esp` and the trap number are four bytes wide. -/
def TfLayout.WF (L : TfLayout) : Prop :=
  (∀ f ∈ L.trapno :: L.eax :: L.initFields, f.within L.size) ∧
  (L.trapno :: L.eax :: L.initFields).Pairwise Field.disjoint ∧
  L.trapno.width = 4 ∧ L.eax.width = 4 ∧ L.eip.width = 4 ∧ L.eflags.width = 4 ∧ L.esp.width = 4

instance (L : TfLayout) : Decidable L.WF := by
  unfold TfLayout.WF; exact inferInstance

/-- Which address space is active: what `set_kpgdir` and `set_upgdir` selected last. -/
inductive AddrSpace
  | kernel
  | user (pgdir : Nat)
deriving DecidableEq, Repr

/-- The globals of `proc.c` together with kernel memory and the counters of the
calls made to the external allocator and memory subsystem. -/
structure State where
  /-- The table `static struct proc procs[MAX_PROC]`. -/
  procs : Fin MAX_PROC → Proc
  /-- kernel memory (holds the kernel stacks) -/
  mem : Mem
  /-- The pointer `currproc`: `none` is the null pointer, `some i` is `procs + i`. -/
  currproc : Option Nat
  /-- The field `tss_entry.esp0`, as a 32-bit pattern. -/
  esp0 : Nat
  /-- the address space activated last -/
  space : AddrSpace
  /-- number of calls of `halloc` made so far -/
  hallocCalls : Nat
  /-- number of calls of `setup_user` made so far -/
  setupUserCalls : Nat
  /-- the calls `copy_user_space(src, dst)` made so far, latest first -/
  copies : List (Nat × Nat)

/-- Undefined behaviour the embedding detects. -/
inductive Fault
  /-- An access `procs[i]` with `i` outside the table. -/
  | procIndex (i : Nat)
  /-- dereference of a null `currproc` -/
  | nullCurrproc
deriving DecidableEq, Repr

/-- What the other translation units and the linker contribute. -/
structure Env where
  /-- the page-size constant of `mm.h` -/
  PAGE_SIZE : Nat
  /-- layout of `struct trapframe` -/
  tfl : TfLayout
  /-- address of `trapret` -/
  trapret : Nat
  /-- address of `forkret` -/
  forkret : Nat
  /-- The allocator `halloc`: the pointer returned by its `n`-th call (`0` is failure). -/
  halloc : Nat → Nat
  /-- The function `setup_user`: the page-directory handle returned by its `n`-th call. -/
  setup_user : Nat → Nat
  /-- The switch `swtch` seen from the scheduler: what the machine state is when the process
  switched into at the `n`-th switch yields back -/
  swtch : Nat → State → State
  /-- The switch `swtch` seen from `sched`: the state in which the yielding process is resumed. -/
  yield : State → State
  /-- The handler `keyboard_handler_main`. -/
  keyboard : State → State
  /-- The handler `uart_handler_main`. -/
  uart : State → State
  /-- the syscall layer on a number other than 5: result and new state -/
  otherSyscall : Nat → State → Nat × State

/-! ## Process table -/

/-- Read `procs[i]`. -/
def getProc (s : State) (i : Nat) : Except Fault Proc :=
  if h : i < MAX_PROC then .ok (s.procs ⟨i, h⟩) else .error (.procIndex i)

/-- Assign to members of `procs[i]`. -/
def setProc (s : State) (i : Nat) (f : Proc → Proc) : Except Fault State :=
  if h : i < MAX_PROC then
    .ok { s with procs := Function.update s.procs ⟨i, h⟩ (f (s.procs ⟨i, h⟩)) }
  else .error (.procIndex i)

/-- The function `find_free_proc`: index of the first entry with `used == 0`, or -1. -/
def find_free_proc (procs : Fin MAX_PROC → Proc) : Int :=
  match (List.finRange MAX_PROC).find? (fun i => !(procs i).used) with
  | some i => (i.val : Int)
  | none => -1

/-- Modelled from the spec: setup_ctx, an assembly routine outside the sources.  It
initialises the register members of the context to zero (spec, section 4.1). -/
def setup_ctx (m : Mem) (ctx : Nat) : Mem :=
  memset m ctx 0 CONTEXT_SIZE

/-- The function `create_process`. -/
def create_process (E : Env) (s : State) : Except Fault (Int × State) :=
  let pid := find_free_proc s.procs
  if pid = -1 then
    .ok (-1, s)
  else do
    let s ← setProc s pid.toNat (fun p => { p with used := true })
    let frame := E.halloc s.hallocCalls
    let s := { s with hallocCalls := s.hallocCalls + 1 }
    if frame = 0 then
      .ok (-1, s)
    else do
      let s ← setProc s pid.toNat (fun p => { p with kstack := frame })
      let p ← getProc s pid.toNat
      let sp := add32 p.kstack E.PAGE_SIZE
      let sp := sub32 sp E.tfl.size
      let s ← setProc s pid.toNat (fun p => { p with tf := sp })
      let sp := sub32 sp 4
      let s := { s with mem := storeLE s.mem sp 4 E.trapret }
      let sp := sub32 sp CONTEXT_SIZE
      let s ← setProc s pid.toNat (fun p => { p with ctx := sp })
      let p ← getProc s pid.toNat
      let s := { s with mem := setup_ctx s.mem p.ctx }
      let s := { s with mem := storeLE s.mem (add32 p.ctx CONTEXT_EIP) 4 E.forkret }
      .ok (pid, s)

/-- Conversion of an `int32_t` to `uint32_t` (`uint32_t pid = create_process();`). -/
def toU32 (r : Int) : Nat := (r % 4294967296).toNat

/-- Assignment to a member of the trapframe at address `tf`. -/
def writeField (m : Mem) (tf : Nat) (f : Field) (v : Nat) : Mem :=
  storeLE m (add32 tf f.off) f.width v

/-- Value of a member of the trapframe at address `tf`. -/
def readField (m : Mem) (tf : Nat) (f : Field) : Nat :=
  loadLE m (add32 tf f.off) f.width

/-- Modelled from the spec: setup_user of the memory subsystem
(`create_address_space() -> handle`); it hands out a page-directory handle and
touches neither the process table nor the kernel stacks. -/
def setup_user (E : Env) (s : State) : Nat × State :=
  (E.setup_user s.setupUserCalls, { s with setupUserCalls := s.setupUserCalls + 1 })

/-- Modelled from the spec: copy_user_space of the memory subsystem
(`clone_address_space`); the call is recorded, user memory is not part of the state. -/
def copy_user_space (s : State) (src dst : Nat) : State :=
  { s with copies := (src, dst) :: s.copies }

/-- Read `*currproc`. -/
def getCurrproc (s : State) : Except Fault Proc :=
  match s.currproc with
  | none => .error .nullCurrproc
  | some i => getProc s i

/-- The function `setup_init_proc`. -/
def setup_init_proc (E : Env) (s : State) : Except Fault State := do
  let (r, s) ← create_process E s
  let pid := toU32 r
  let (h, s) := setup_user E s
  let s ← setProc s pid (fun p => { p with pgdir := h })
  let p ← getProc s pid
  let s := { s with mem := memset s.mem p.tf 0 E.tfl.size }
  let s := { s with mem := writeField s.mem p.tf E.tfl.cs 0x1B }
  let s := { s with mem := writeField s.mem p.tf E.tfl.ds 0x23 }
  let s := { s with mem := writeField s.mem p.tf E.tfl.es 0x23 }
  let s := { s with mem := writeField s.mem p.tf E.tfl.ss 0x23 }
  let s := { s with mem := writeField s.mem p.tf E.tfl.eflags 0x00000200 }
  let s := { s with mem := writeField s.mem p.tf E.tfl.esp E.PAGE_SIZE }
  let s := { s with mem := writeField s.mem p.tf E.tfl.eip 0x10 }
  let s ← setProc s pid (fun p => { p with start := true })
  setProc s pid (fun p => { p with pid := pid })

/-- The function `set_active_proc`: `currproc = procs + pid`. -/
def set_active_proc (s : State) (pid : Nat) : State :=
  { s with currproc := some pid }

/-- The function `fork`. -/
def fork (E : Env) (s : State) : Except Fault State := do
  let (r, s) ← create_process E s
  let pid := toU32 r
  let (h, s) := setup_user E s
  let s ← setProc s pid (fun p => { p with pgdir := h })
  let cur ← getCurrproc s
  let p ← getProc s pid
  let s := copy_user_space s cur.pgdir p.pgdir
  let s := { s with mem := memcpy s.mem p.tf cur.tf E.tfl.size }
  let s := { s with mem := writeField s.mem cur.tf E.tfl.eax pid }
  let s := { s with mem := writeField s.mem p.tf E.tfl.eax 0 }
  let s ← setProc s pid (fun p => { p with start := true })
  setProc s pid (fun p => { p with pid := pid })

/-! ## Scheduler -/

/-- Modelled from the spec: set_upgdir of the memory subsystem
(`activate_user_space(handle)`). -/
def set_upgdir (s : State) (pgdir : Nat) : State := { s with space := .user pgdir }

/-- Modelled from the spec: set_kpgdir of the memory subsystem
(`activate_kernel_space()`). -/
def set_kpgdir (s : State) : State := { s with space := .kernel }

/-- One call `swtch(&sched_proc.ctx, procs[p].ctx)` of the scheduler loop. -/
structure Visit where
  /-- the index `p` -/
  slot : Fin MAX_PROC
  /-- the context switched to, `procs[p].ctx` -/
  ctx : Nat
  /-- machine state when `swtch` is called -/
  atSwitch : State
  /-- machine state after `swtch` has returned and `set_kpgdir` has run,
  in which the loop goes on to the next slot -/
  resumed : State

/-- Progress of the scheduler loop: the switches made so far (oldest first), their
number, and the current machine state. -/
structure Scan where
  visits : List Visit
  tick : Nat
  state : State

/-- Body of the inner `for` loop of `scheduler` for index `p`. -/
def scanSlot (E : Env) (acc : Scan) (p : Fin MAX_PROC) : Scan :=
  let s := acc.state
  if (s.procs p).start = false then
    acc
  else
    let s := set_active_proc s p.val
    let s := { s with esp0 := add32 (s.procs p).kstack E.PAGE_SIZE }
    let s := set_upgdir s (s.procs p).pgdir
    let s1 := E.swtch acc.tick s
    let s1 := set_kpgdir s1
    { visits := acc.visits ++ [⟨p, (s.procs p).ctx, s, s1⟩], tick := acc.tick + 1, state := s1 }

/-- One pass of the inner loop `for(int p = 0; p<MAX_PROC; p++)` of `scheduler`. -/
def schedPass (E : Env) (acc : Scan) : Scan :=
  (List.finRange MAX_PROC).foldl (scanSlot E) acc

/-- The first `n` passes of the endless loop `for(;;)` of `scheduler`. -/
def schedLoop (E : Env) : Nat → Scan → Scan
  | 0, acc => acc
  | n + 1, acc => schedLoop E n (schedPass E acc)

/-- The function `scheduler`, cut off after `n` passes of its endless loop.  Of
`set_tss` only the assignment `tss_entry.esp0 = 0` concerns the state; the result
of the allocation of the scheduler context is not inspected further by the code. -/
def scheduler (E : Env) (n : Nat) (s : State) : Except Fault Scan := do
  let s := { s with esp0 := 0 }
  let s := { s with hallocCalls := s.hallocCalls + 1 }
  let s ← setup_init_proc E s
  .ok (schedLoop E n ⟨[], 0, s⟩)

/-! ## Trap dispatch -/

/-- The function `sched`: `swtch(&currproc->ctx, sched_proc.ctx)`.  The caller is
suspended; when it is resumed the machine is in the state the environment has
produced meanwhile. -/
def sched (E : Env) (s : State) : State := E.yield s

/-- Modelled from the spec: call_syscall of the syscall layer, which is not among
the sources.  It reads the syscall number from the member `eax` of the trapframe and
runs the handler registered for it.  Number 5 is `fork`, registered without arguments
(`add_syscall(5, fork, 0)` in `scheduler`).  The handler `fork` is of type `void` and
returns its value to the caller through the trapframe (spec, sections 4.1 and 6:
child pid to the parent by the trapframe convention), so the result handed back for
it is the return-value member `eax` of the trapframe passed in, as the handler left
it. -/
def call_syscall (E : Env) (s : State) (tf : Nat) : Except Fault (Nat × State) :=
  let num := readField s.mem tf E.tfl.eax
  if num = 5 then do
    let s ← fork E s
    .ok (readField s.mem tf E.tfl.eax, s)
  else
    .ok (E.otherSyscall num s)

/-- The functions `trap` calls directly. -/
inductive Call
  | keyboard
  | uart
  | syscall
  | sched
deriving DecidableEq, Repr

/-- A completed run of `trap`. -/
structure TrapRun where
  /-- the direct calls, in the order they were made -/
  calls : List Call
  /-- machine state when `sched` is called: the image the process resumes with -/
  atYield : State
  /-- machine state when `trap` returns -/
  final : State

/-- The function `trap`.  The arguments of `LOG` in the branch of vector `0x80` are
evaluated, among them `currproc->pid`; the message itself is not part of the state. -/
def trap (E : Env) (s : State) (tf : Nat) : Except Fault TrapRun := do
  let trapno := readField s.mem tf E.tfl.trapno
  let (calls, s) ←
    if trapno = 0x21 then
      (pure ([Call.keyboard], E.keyboard s) : Except Fault (List Call × State))
    else if trapno = 0x24 then
      pure ([Call.uart], E.uart s)
    else if trapno = 0x80 then do
      let _ ← getCurrproc s
      let (r, s) ← call_syscall E s tf
      pure ([Call.syscall], { s with mem := writeField s.mem tf E.tfl.eax r })
    else
      pure ([], s)
  pure ⟨calls ++ [Call.sched], s, sched E s⟩

/-! ## Derived notions used in the statements -/

/-- Slot `k` is the lowest-index entry with `used == 0`. -/
def FirstFree (procs : Fin MAX_PROC → Proc) (k : Fin MAX_PROC) : Prop :=
  (procs k).used = false ∧ ∀ j : Fin MAX_PROC, j < k → (procs j).used = true

instance (procs : Fin MAX_PROC → Proc) (k : Fin MAX_PROC) : Decidable (FirstFree procs k) := by
  unfold FirstFree; exact inferInstance

/-- Address of the trapframe carved from the stack page at `b`. -/
def tfAddr (E : Env) (b : Nat) : Nat := sub32 (add32 b E.PAGE_SIZE) E.tfl.size

/-- Address of the bootstrap return word, directly below the trapframe. -/
def retAddr (E : Env) (b : Nat) : Nat := sub32 (tfAddr E b) 4

/-- Address of the context carved from the stack page at `b`. -/
def ctxAddr (E : Env) (b : Nat) : Nat := sub32 (retAddr E b) CONTEXT_SIZE

/-- State after `create_process` has claimed slot `k` and the allocator has failed. -/
def claimed (s : State) (k : Fin MAX_PROC) : State :=
  { s with
    procs := Function.update s.procs k { s.procs k with used := true }
    hallocCalls := s.hallocCalls + 1 }

/-- State after `create_process` has set up slot `k` on the stack page at `b`. -/
def created (E : Env) (s : State) (k : Fin MAX_PROC) (b : Nat) : State :=
  { s with
    procs := Function.update s.procs k
      { s.procs k with used := true, kstack := b, tf := tfAddr E b, ctx := ctxAddr E b }
    mem := storeLE (setup_ctx (storeLE s.mem (retAddr E b) 4 E.trapret) (ctxAddr E b))
      (add32 (ctxAddr E b) CONTEXT_EIP) 4 E.forkret
    hallocCalls := s.hallocCalls + 1 }


/-- Consecutive calls of `create_process`: the results in call order and the final state. -/
def createN (E : Env) : Nat → State → Except Fault (List Int × State)
  | 0, s => .ok ([], s)
  | n + 1, s => do
    let (r, s) ← create_process E s
    let (rs, s) ← createN E n s
    .ok (r :: rs, s)

/-- What holds when the scheduler calls `swtch` for a slot: the current-process
reference, the kernel stack pointer of the task state and the active address space
all belong to that slot, and the context switched to is the one of the slot. -/
def Visit.InOrder (E : Env) (v : Visit) : Prop :=
  (v.atSwitch.procs v.slot).start = true ∧
  v.atSwitch.currproc = some v.slot.val ∧
  v.atSwitch.esp0 = ((v.atSwitch.procs v.slot).kstack + E.PAGE_SIZE) % 4294967296 ∧
  v.atSwitch.space = .user (v.atSwitch.procs v.slot).pgdir ∧
  v.ctx = (v.atSwitch.procs v.slot).ctx ∧
  v.resumed.space = .kernel

/-- The indices whose entry has `start == 1`, in ascending order. -/
def startedSlots (s : State) : List (Fin MAX_PROC) :=
  (List.finRange MAX_PROC).filter (fun i => (s.procs i).start)

/-- The machine state in which the scheduler, scanning in state `s`, calls `swtch`
for slot `p`. -/
def switchState (E : Env) (s : State) (p : Fin MAX_PROC) : State :=
  set_upgdir { set_active_proc s p.val with esp0 := add32 (s.procs p).kstack E.PAGE_SIZE }
    (s.procs p).pgdir

/-- The trapframe image `setup_init_proc` builds at address `tf`. -/
def initImage (E : Env) (m : Mem) (tf : Nat) : Mem :=
  writeField (writeField (writeField (writeField (writeField (writeField (writeField
    (memset m tf 0 E.tfl.size) tf E.tfl.cs 0x1B) tf E.tfl.ds 0x23) tf E.tfl.es 0x23)
    tf E.tfl.ss 0x23) tf E.tfl.eflags 0x200) tf E.tfl.esp E.PAGE_SIZE) tf E.tfl.eip 0x10

/-- State after `setup_init_proc` has set up slot `k` on the stack page at `b`. -/
def initialised (E : Env) (s : State) (k : Fin MAX_PROC) (b : Nat) : State :=
  { s with
    procs := Function.update s.procs k
      { used := true, start := true, pid := k.val, kstack := b, tf := tfAddr E b,
        ctx := ctxAddr E b, pgdir := E.setup_user s.setupUserCalls }
    mem := initImage E (created E s k b).mem (tfAddr E b)
    hallocCalls := s.hallocCalls + 1
    setupUserCalls := s.setupUserCalls + 1 }

/-- Byte offset `j` of the trapframe belongs to member `f`. -/
def Field.covers (f : Field) (j : Nat) : Prop := f.off ≤ j ∧ j < f.off + f.width

instance (f : Field) (j : Nat) : Decidable (f.covers j) := by
  unfold Field.covers; exact inferInstance

/-- State after `fork`, called by the process in slot `c`, has set up slot `k` on the
stack page at `b`. -/
def forked (E : Env) (s : State) (k c : Fin MAX_PROC) (b : Nat) : State :=
  { s with
    procs := Function.update s.procs k
      { used := true, start := true, pid := k.val, kstack := b, tf := tfAddr E b,
        ctx := ctxAddr E b, pgdir := E.setup_user s.setupUserCalls }
    mem := writeField (writeField
      (memcpy (created E s k b).mem (tfAddr E b) (s.procs c).tf E.tfl.size)
      (s.procs c).tf E.tfl.eax k.val) (tfAddr E b) E.tfl.eax 0
    hallocCalls := s.hallocCalls + 1
    setupUserCalls := s.setupUserCalls + 1
    copies := ((s.procs c).pgdir, E.setup_user s.setupUserCalls) :: s.copies }

/-- The operations of `proc.c` that write the process table or move `currproc`. -/
inductive Op
  /-- a call of `create_process` -/
  | create
  /-- a call of `setup_init_proc` -/
  | init
  /-- a call of `fork` -/
  | fork
  /-- A call `set_active_proc(p)`. -/
  | activate (p : Nat)
deriving DecidableEq, Repr

/-- One operation: the values returned by the calls of `create_process` it makes,
and the new state. -/
def Op.run (E : Env) (s : State) : Op → Except Fault (List Int × State)
  | .create => do
    let (r, s1) ← create_process E s
    .ok ([r], s1)
  | .init => do
    let (r, _) ← create_process E s
    let s1 ← setup_init_proc E s
    .ok ([r], s1)
  | .fork => do
    let (r, _) ← create_process E s
    let s1 ← Kernel.fork E s
    .ok ([r], s1)
  | .activate p => .ok ([], set_active_proc s p)

/-- A sequence of operations, carried out until one of them faults: the values
returned by `create_process` so far and the state reached. -/
def runOps (E : Env) : List Op → State → List Int × State
  | [], s => ([], s)
  | op :: ops, s =>
    match op.run E s with
    | .ok (rs, s1) => ((rs ++ (runOps E ops s1).1), (runOps E ops s1).2)
    | .error _ => ([], s)

/-- A trapframe layout in the style of xv6: 76 bytes, 16-bit selectors. -/
def exLayout : TfLayout :=
  { size := 76, trapno := ⟨48, 4⟩, eax := ⟨28, 4⟩, eip := ⟨56, 4⟩, cs := ⟨60, 2⟩,
    eflags := ⟨64, 4⟩, esp := ⟨68, 4⟩, ss := ⟨72, 2⟩, ds := ⟨44, 2⟩, es := ⟨40, 2⟩ }

/-- An environment with 4 KiB pages, an allocator handing out consecutive pages from
`0x200000`, and collaborators that leave the state alone. -/
def exEnv : Env :=
  { PAGE_SIZE := 4096, tfl := exLayout, trapret := 0x100200, forkret := 0x100100,
    halloc := fun n => 0x200000 + n * 4096, setup_user := fun n => 0x300000 + n * 4096,
    swtch := fun _ s => s, yield := fun s => s, keyboard := fun s => s, uart := fun s => s,
    otherSyscall := fun _ s => (0, s) }

/-- The environment `exEnv` with an allocator that always fails. -/
def exEnvOom : Env := { exEnv with halloc := fun _ => 0 }

/-- An entry of the zero-initialised table. -/
def exProc0 : Proc := ⟨false, false, 0, 0, 0, 0, 0⟩

/-- The machine at boot: zeroed globals. -/
def exBoot : State :=
  { procs := fun _ => exProc0, mem := fun _ => 0, currproc := none, esp0 := 0,
    space := .kernel, hallocCalls := 0, setupUserCalls := 0, copies := [] }

/-- A table with slots 1 and 2 runnable, slot 3 claimed but never finalised, and
the other slots unused. -/
def exSchedState : State :=
  { exBoot with
    procs := fun i =>
      if i.val = 1 then ⟨true, true, 1, 0x201000, 0x201fb4, 0x201f9c, 0x301000⟩
      else if i.val = 2 then ⟨true, true, 2, 0x202000, 0x202fb4, 0x202f9c, 0x302000⟩
      else if i.val = 3 then ⟨true, false, 0, 0x203000, 0x203fb4, 0x203f9c, 0⟩
      else exProc0 }

/-- The machine after `setup_init_proc` at boot, with the init process (slot 0)
scheduled. -/
def exRunning : State :=
  { initialised exEnv exBoot 0 (exEnv.halloc 0) with currproc := some 0 }

/-- A machine whose ten slots are all used and runnable, slot `i` living on the page at
`0x200000 + i * 0x1000`, with the process of slot 0 scheduled. -/
def exFull : State :=
  { exBoot with
    procs := fun i =>
      ⟨true, true, i.val, 0x200000 + i.val * 0x1000, 0x200000 + i.val * 0x1000 + 0xfb4,
        0x200000 + i.val * 0x1000 + 0xf9c, 0x300000 + i.val * 0x1000⟩
    currproc := some 0
    hallocCalls := 10
    setupUserCalls := 10 }

/-- The machine `exFull` at the moment the process of slot 0 has executed `int 0x80`
with syscall number 5 in `eax`. -/
def exFullSyscall : State :=
  { exFull with
    mem := writeField (writeField exFull.mem (exFull.procs 0).tf exLayout.eax 5)
      (exFull.procs 0).tf exLayout.trapno 0x80 }
/-! ## Lemmas on the process table -/

theorem find_free_proc_full (procs : Fin MAX_PROC → Proc) (h : ∀ i, (procs i).used = true) :
    find_free_proc procs = -1 := by
  unfold find_free_proc
  have : (List.finRange MAX_PROC).find? (fun i => !(procs i).used) = none := by
    rw [List.find?_eq_none]
    intro x _
    simp [h x]
  rw [this]

theorem find_free_proc_first (procs : Fin MAX_PROC → Proc) (k : Fin MAX_PROC)
    (h : FirstFree procs k) : find_free_proc procs = (k.val : Int) := by
  unfold find_free_proc
  have : (List.finRange MAX_PROC).find? (fun i => !(procs i).used) = some k := by
    rw [List.find?_eq_some]
    refine ⟨by simp [h.1], ?_⟩
    obtain ⟨as, bs, hsplit⟩ := List.append_of_mem (List.mem_finRange k)
    refine ⟨as, bs, hsplit, ?_⟩
    intro a ha
    have hpw := List.pairwise_lt_finRange MAX_PROC
    rw [hsplit, List.pairwise_append] at hpw
    have hlt : a < k := hpw.2.2 a ha k (List.mem_cons_self _ _)
    simp [h.2 a hlt]
  rw [this]

theorem exists_firstFree (procs : Fin MAX_PROC → Proc) (h : ∃ i, (procs i).used = false) :
    ∃ k, FirstFree procs k := by
  classical
  obtain ⟨i, hi⟩ := h
  have hne : (Finset.univ.filter (fun j : Fin MAX_PROC => (procs j).used = false)).Nonempty :=
    ⟨i, by simp [hi]⟩
  refine ⟨Finset.min' _ hne, ?_, ?_⟩
  · have := Finset.min'_mem _ hne
    simpa using this
  · intro j hj
    by_contra hcon
    have hjm : j ∈ Finset.univ.filter (fun j : Fin MAX_PROC => (procs j).used = false) := by
      simpa using hcon
    exact absurd (Finset.min'_le _ j hjm) (not_le.mpr hj)

theorem firstFree_unique (procs : Fin MAX_PROC → Proc) (k k2 : Fin MAX_PROC)
    (h : FirstFree procs k) (h2 : FirstFree procs k2) : k = k2 := by
  rcases lt_trichotomy k k2 with hlt | heq | hgt
  · have := h2.2 k hlt; rw [h.1] at this; cases this
  · exact heq
  · have := h.2 k2 hgt; rw [h2.1] at this; cases this

theorem getProc_fin (s : State) (k : Fin MAX_PROC) : getProc s k.val = .ok (s.procs k) := by
  simp [getProc]

theorem setProc_fin (s : State) (k : Fin MAX_PROC) (f : Proc → Proc) :
    setProc s k.val f = .ok { s with procs := Function.update s.procs k (f (s.procs k)) } := by
  simp [setProc]

theorem create_process_full (E : Env) (s : State) (h : ∀ i, (s.procs i).used = true) :
    create_process E s = .ok (-1, s) := by
  unfold create_process
  simp [find_free_proc_full s.procs h]

theorem create_process_oom (E : Env) (s : State) (k : Fin MAX_PROC) (h : FirstFree s.procs k)
    (hb : E.halloc s.hallocCalls = 0) :
    create_process E s = .ok (-1, claimed s k) := by
  unfold create_process
  have hk : ((k.val : Int) = -1) = False := by
    simp only [eq_iff_iff, iff_false]; omega
  rw [find_free_proc_first s.procs k h]
  simp [hk, setProc_fin, hb, claimed, bind, Except.bind]

theorem create_process_ok (E : Env) (s : State) (k : Fin MAX_PROC) (h : FirstFree s.procs k)
    (hb : E.halloc s.hallocCalls ≠ 0) :
    create_process E s = .ok ((k.val : Int), created E s k (E.halloc s.hallocCalls)) := by
  unfold create_process
  have hk : ((k.val : Int) = -1) = False := by
    simp only [eq_iff_iff, iff_false]; omega
  rw [find_free_proc_first s.procs k h]
  simp [hk, setProc_fin, getProc_fin, hb, created, bind, Except.bind, tfAddr, retAddr, ctxAddr]

/-! ## Addresses carved from a stack page that does not wrap -/

theorem carve_nowrap (E : Env) (b : Nat) (hT : 0 < E.tfl.size)
    (hfit : E.tfl.size + 24 ≤ E.PAGE_SIZE) (hwrap : b + E.PAGE_SIZE ≤ 4294967296) :
    tfAddr E b = b + E.PAGE_SIZE - E.tfl.size ∧
    retAddr E b = b + E.PAGE_SIZE - E.tfl.size - 4 ∧
    ctxAddr E b = b + E.PAGE_SIZE - E.tfl.size - 24 := by
  simp only [tfAddr, retAddr, ctxAddr, sub32, add32, CONTEXT_SIZE]
  omega

/-! ## Lemmas on memory -/

theorem offsetFrom_lt_iff (a x n : Nat) (ha : a + n ≤ 4294967296) (hx : x < 4294967296) :
    offsetFrom a x < n ↔ (a ≤ x ∧ x < a + n) := by
  unfold offsetFrom sub32
  omega

theorem offsetFrom_eq_sub (a x n : Nat) (ha : a + n ≤ 4294967296) (h1 : a ≤ x) (h2 : x < a + n) :
    offsetFrom a x = x - a := by
  unfold offsetFrom sub32
  omega

theorem offsetFrom_add32 (a i : Nat) (hi : i < 4294967296) : offsetFrom a (add32 a i) = i := by
  unfold offsetFrom sub32 add32
  omega

theorem add32_nowrap (a i : Nat) (h : a + i < 4294967296) : add32 a i = a + i := by
  unfold add32
  omega

theorem storeLE_out (m : Mem) (a w v x : Nat) (ha : a + w ≤ 4294967296) (hx : x < 4294967296)
    (h : x < a ∨ a + w ≤ x) : storeLE m a w v x = m x := by
  unfold storeLE
  rw [if_neg]
  rw [offsetFrom_lt_iff a x w ha hx]
  omega

theorem memset_out (m : Mem) (a c n x : Nat) (ha : a + n ≤ 4294967296) (hx : x < 4294967296)
    (h : x < a ∨ a + n ≤ x) : memset m a c n x = m x := by
  unfold memset
  rw [if_neg]
  rw [offsetFrom_lt_iff a x n ha hx]
  omega

theorem memset_in (m : Mem) (a c n x : Nat) (ha : a + n ≤ 4294967296)
    (h1 : a ≤ x) (h2 : x < a + n) : memset m a c n x = c % 256 := by
  unfold memset
  rw [if_pos]
  rw [offsetFrom_lt_iff a x n ha (by omega)]
  omega

theorem memcpy_out (m : Mem) (d src n x : Nat) (hd : d + n ≤ 4294967296) (hx : x < 4294967296)
    (h : x < d ∨ d + n ≤ x) : memcpy m d src n x = m x := by
  unfold memcpy
  rw [if_neg]
  rw [offsetFrom_lt_iff d x n hd hx]
  omega

theorem memcpy_in (m : Mem) (d src n j : Nat) (hd : d + n ≤ 4294967296)
    (hs : src + n ≤ 4294967296) (hj : j < n) : memcpy m d src n (d + j) = m (src + j) := by
  unfold memcpy
  rw [if_pos, offsetFrom_eq_sub d (d + j) n hd (by omega) (by omega), add32_nowrap]
  · congr 1; omega
  · omega
  · rw [offsetFrom_lt_iff d (d + j) n hd (by omega)]
    omega

theorem loadLE_congr2 (m1 m2 : Mem) (a1 a2 : Nat) : ∀ w : Nat,
    (∀ i, i < w → m1 (add32 a1 i) = m2 (add32 a2 i)) → loadLE m1 a1 w = loadLE m2 a2 w := by
  intro w
  induction w with
  | zero => intro _; rfl
  | succ w ih =>
    intro h
    simp only [loadLE]
    rw [ih (fun i hi => h i (by omega)), h w (by omega)]

theorem loadLE_congr (m1 m2 : Mem) (a : Nat) (w : Nat)
    (h : ∀ i, i < w → m1 (add32 a i) = m2 (add32 a i)) : loadLE m1 a w = loadLE m2 a w :=
  loadLE_congr2 m1 m2 a a w h

theorem loadLE_agree (m1 m2 : Mem) (a w : Nat) (ha : a + w ≤ 4294967296)
    (h : ∀ x, a ≤ x → x < a + w → m1 x = m2 x) : loadLE m1 a w = loadLE m2 a w := by
  apply loadLE_congr
  intro i hi
  rw [add32_nowrap a i (by omega)]
  exact h _ (by omega) (by omega)

theorem loadLE_storeLE_prefix (m : Mem) (a w v : Nat) (hw : w ≤ 4294967296) : ∀ n : Nat, n ≤ w →
    loadLE (storeLE m a w v) a n = v % 256 ^ n := by
  intro n
  induction n with
  | zero => intro _; simp [loadLE, Nat.mod_one]
  | succ n ih =>
    intro hn
    simp only [loadLE]
    rw [ih (by omega), Nat.mod_pow_succ]
    unfold storeLE
    rw [offsetFrom_add32 a n (by omega), if_pos (by omega), Nat.mul_comm]

theorem loadLE_storeLE_same (m : Mem) (a w v : Nat) (hw : w ≤ 4294967296) :
    loadLE (storeLE m a w v) a w = v % 256 ^ w :=
  loadLE_storeLE_prefix m a w v hw w (Nat.le_refl w)

theorem loadLE_zero (m : Mem) (a : Nat) : ∀ w : Nat,
    (∀ i, i < w → m (add32 a i) = 0) → loadLE m a w = 0 := by
  intro w
  induction w with
  | zero => intro _; rfl
  | succ w ih =>
    intro h
    simp only [loadLE]
    rw [ih (fun i hi => h i (by omega)), h w (by omega)]
    simp

theorem mod_pow_of_lt (v w : Nat) (hw : 1 ≤ w) (hv : v < 256) : v % 256 ^ w = v := by
  apply Nat.mod_eq_of_lt
  calc v < 256 := hv
    _ = 256 ^ 1 := by norm_num
    _ ≤ 256 ^ w := Nat.pow_le_pow_right (by norm_num) hw

theorem writeField_out (m : Mem) (tf : Nat) (f : Field) (v x : Nat)
    (hnw : tf + f.off + f.width ≤ 4294967296) (hx : x < 4294967296)
    (h : x < tf + f.off ∨ tf + f.off + f.width ≤ x) : writeField m tf f v x = m x := by
  unfold writeField
  by_cases hw : f.width = 0
  · unfold storeLE
    rw [if_neg]
    omega
  · rw [add32_nowrap tf f.off (by omega)]
    exact storeLE_out m _ _ v x hnw hx h

theorem readField_writeField_same (m : Mem) (tf : Nat) (f : Field) (v : Nat) (hw : f.width ≤ 4) :
    readField (writeField m tf f v) tf f = v % 256 ^ f.width := by
  unfold readField writeField
  exact loadLE_storeLE_same m _ _ v (by omega)

theorem readField_agree (m1 m2 : Mem) (tf : Nat) (f : Field)
    (hnw : tf + f.off + f.width ≤ 4294967296)
    (h : ∀ x, tf + f.off ≤ x → x < tf + f.off + f.width → m1 x = m2 x) :
    readField m1 tf f = readField m2 tf f := by
  unfold readField
  by_cases hw : f.width = 0
  · rw [hw]; rfl
  · rw [add32_nowrap tf f.off (by omega)]
    exact loadLE_agree m1 m2 _ _ hnw h

theorem readField_writeField_disj (m : Mem) (tf : Nat) (f g : Field) (v : Nat)
    (hf : tf + f.off + f.width ≤ 4294967296) (hg : tf + g.off + g.width ≤ 4294967296)
    (hd : f.disjoint g) :
    readField (writeField m tf g v) tf f = readField m tf f := by
  unfold Field.disjoint at hd
  apply readField_agree _ _ _ _ hf
  intro x h1 h2
  exact writeField_out m tf g v x hg (by omega) (by omega)

theorem readField_congr2 (m1 m2 : Mem) (tf1 tf2 : Nat) (g : Field)
    (h1 : tf1 + g.off + g.width ≤ 4294967296) (h2 : tf2 + g.off + g.width ≤ 4294967296)
    (h : ∀ i, i < g.width → m1 (tf1 + (g.off + i)) = m2 (tf2 + (g.off + i))) :
    readField m1 tf1 g = readField m2 tf2 g := by
  unfold readField
  apply loadLE_congr2
  intro i hi
  rw [add32_nowrap tf1 g.off (by omega), add32_nowrap _ i (by omega),
    add32_nowrap tf2 g.off (by omega), add32_nowrap _ i (by omega), Nat.add_assoc, Nat.add_assoc]
  exact h i hi

/-! ## Results of `setup_init_proc` and `fork` in closed form -/

theorem toU32_fin (k : Fin MAX_PROC) : toU32 (k.val : Int) = k.val := by
  unfold toU32
  have : k.val < 10 := k.isLt
  omega

theorem toU32_neg_one : toU32 (-1) = 4294967295 := by
  decide

theorem setup_init_proc_ok (E : Env) (s : State) (k : Fin MAX_PROC) (h : FirstFree s.procs k)
    (hb : E.halloc s.hallocCalls ≠ 0) :
    setup_init_proc E s = .ok (initialised E s k (E.halloc s.hallocCalls)) := by
  unfold setup_init_proc
  rw [create_process_ok E s k h hb]
  simp [bind, Except.bind, toU32_fin, setProc_fin, getProc_fin, setup_user, created,
    initialised, initImage]

theorem created_mem_out (E : Env) (s : State) (k : Fin MAX_PROC) (b x : Nat)
    (hT : 0 < E.tfl.size) (hfit : E.tfl.size + 24 ≤ E.PAGE_SIZE)
    (hwrap : b + E.PAGE_SIZE ≤ 4294967296) (hx : x < 4294967296)
    (h : x < ctxAddr E b ∨ tfAddr E b ≤ x) : (created E s k b).mem x = s.mem x := by
  obtain ⟨h1, h2, h3⟩ := carve_nowrap E b hT hfit hwrap
  rw [h1, h3] at h
  simp only [created, setup_ctx, h2, h3, CONTEXT_EIP, CONTEXT_SIZE]
  rw [add32_nowrap _ _ (by omega), storeLE_out _ _ _ _ _ (by omega) hx (by omega),
    memset_out _ _ _ _ _ (by omega) hx (by omega),
    storeLE_out _ _ _ _ _ (by omega) hx (by omega)]

theorem created_ctx_eip (E : Env) (s : State) (k : Fin MAX_PROC) (b : Nat)
    (hfr : E.forkret < 4294967296) :
    loadLE (created E s k b).mem (add32 (ctxAddr E b) CONTEXT_EIP) 4 = E.forkret := by
  simp only [created]
  rw [loadLE_storeLE_same _ _ _ _ (by norm_num)]
  exact Nat.mod_eq_of_lt (by norm_num; omega)

theorem created_ret (E : Env) (s : State) (k : Fin MAX_PROC) (b : Nat)
    (hT : 0 < E.tfl.size) (hfit : E.tfl.size + 24 ≤ E.PAGE_SIZE)
    (hwrap : b + E.PAGE_SIZE ≤ 4294967296) (htr : E.trapret < 4294967296) :
    loadLE (created E s k b).mem (retAddr E b) 4 = E.trapret := by
  obtain ⟨h1, h2, h3⟩ := carve_nowrap E b hT hfit hwrap
  have hagree : loadLE (created E s k b).mem (retAddr E b) 4 =
      loadLE (storeLE s.mem (retAddr E b) 4 E.trapret) (retAddr E b) 4 := by
    apply loadLE_agree _ _ _ _ (by omega)
    intro x hx1 hx2
    simp only [created, setup_ctx, h3, CONTEXT_EIP, CONTEXT_SIZE]
    rw [add32_nowrap _ _ (by omega), storeLE_out _ _ _ _ _ (by omega) (by omega) (by omega),
      memset_out _ _ _ _ _ (by omega) (by omega) (by omega)]
  rw [hagree, loadLE_storeLE_same _ _ _ _ (by norm_num)]
  exact Nat.mod_eq_of_lt (by norm_num; omega)

theorem getCurrproc_fin (s : State) (c : Fin MAX_PROC) (h : s.currproc = some c.val) :
    getCurrproc s = .ok (s.procs c) := by
  unfold getCurrproc
  rw [h]
  exact getProc_fin s c

theorem fork_ok (E : Env) (s : State) (k c : Fin MAX_PROC) (h : FirstFree s.procs k)
    (hb : E.halloc s.hallocCalls ≠ 0) (hcur : s.currproc = some c.val) (hck : c ≠ k) :
    fork E s = .ok (forked E s k c (E.halloc s.hallocCalls)) := by
  unfold fork
  rw [create_process_ok E s k h hb]
  simp only [bind, Except.bind, toU32_fin, setProc_fin, setup_user]
  rw [getCurrproc_fin _ c (by simpa [created] using hcur)]
  simp [getProc_fin, setProc_fin, created, forked, copy_user_space, Function.update_noteq hck]

theorem setProc_oob (s : State) (i : Nat) (f : Proc → Proc) (h : MAX_PROC ≤ i) :
    setProc s i f = .error (.procIndex i) := by
  unfold setProc
  rw [dif_neg (by omega)]

theorem fork_full (E : Env) (s : State) (hfull : ∀ i, (s.procs i).used = true) :
    fork E s = .error (.procIndex 4294967295) := by
  unfold fork
  rw [create_process_full E s hfull]
  simp only [bind, Except.bind, toU32_neg_one, setup_user, setProc_oob _ 4294967295 _ (by decide)]

theorem fork_oom (E : Env) (s : State) (k : Fin MAX_PROC) (hk : FirstFree s.procs k)
    (hb : E.halloc s.hallocCalls = 0) :
    fork E s = .error (.procIndex 4294967295) := by
  unfold fork
  rw [create_process_oom E s k hk hb]
  simp only [bind, Except.bind, toU32_neg_one, setup_user, setProc_oob _ 4294967295 _ (by decide)]

theorem trap_syscall_fault (E : Env) (s : State) (tf : Nat) (f : Fault)
    (hno : readField s.mem tf E.tfl.trapno = 0x80)
    (hnum : readField s.mem tf E.tfl.eax = 5)
    (hf : fork E s = .error f) :
    (∃ g, trap E s tf = .error g) ∧
    ∀ c : Fin MAX_PROC, s.currproc = some c.val → trap E s tf = .error f := by
  constructor
  · cases hc : getCurrproc s with
    | error g =>
      exact ⟨g, by simp [trap, hno, hc, bind, Except.bind]⟩
    | ok cur =>
      exact ⟨f, by simp [trap, call_syscall, hno, hnum, hc, hf, bind, Except.bind]⟩
  · intro c hc
    simp [trap, call_syscall, hno, hnum, getCurrproc_fin s c hc, hf, bind, Except.bind]

/-! ## The scheduler scan -/

theorem scanSlot_skip (E : Env) (acc : Scan) (p : Fin MAX_PROC)
    (h : (acc.state.procs p).start = false) : scanSlot E acc p = acc := by
  simp [scanSlot, h]

theorem scanSlot_visit (E : Env) (acc : Scan) (p : Fin MAX_PROC)
    (h : (acc.state.procs p).start = true) :
    ∃ v : Visit, scanSlot E acc p = ⟨acc.visits ++ [v], acc.tick + 1, v.resumed⟩ ∧
      v.slot = p ∧ v.InOrder E ∧ v.atSwitch = switchState E acc.state p ∧
      v.resumed = set_kpgdir (E.swtch acc.tick v.atSwitch) := by
  refine ⟨⟨p, (acc.state.procs p).ctx, switchState E acc.state p,
    set_kpgdir (E.swtch acc.tick (switchState E acc.state p))⟩, ?_, rfl, ?_, rfl, rfl⟩
  · simp only [scanSlot, h]
    rfl
  · simp [Visit.InOrder, switchState, set_upgdir, set_active_proc, set_kpgdir, h, add32]

theorem scanList_visits (E : Env) : ∀ (l : List (Fin MAX_PROC)) (acc : Scan),
    l.Pairwise (· < ·) →
    ∃ vs, (l.foldl (scanSlot E) acc).visits = acc.visits ++ vs ∧
      (∀ v ∈ vs, v.slot ∈ l ∧ v.InOrder E) ∧
      (vs.map Visit.slot).Pairwise (· < ·) := by
  intro l
  induction l with
  | nil => intro acc _; exact ⟨[], by simp, by simp, by simp⟩
  | cons p l ih =>
    intro acc hp
    rw [List.pairwise_cons] at hp
    rw [List.foldl_cons]
    cases hst : (acc.state.procs p).start with
    | false =>
      rw [scanSlot_skip E acc p hst]
      obtain ⟨vs, h1, h2, h3⟩ := ih acc hp.2
      exact ⟨vs, h1, fun v hv => ⟨List.mem_cons_of_mem _ (h2 v hv).1, (h2 v hv).2⟩, h3⟩
    | true =>
      obtain ⟨v, hv, hslot, hord, _, _⟩ := scanSlot_visit E acc p hst
      rw [hv]
      obtain ⟨vs, h1, h2, h3⟩ := ih ⟨acc.visits ++ [v], acc.tick + 1, v.resumed⟩ hp.2
      refine ⟨v :: vs, ?_, ?_, ?_⟩
      · rw [h1]; simp
      · intro w hw
        rcases List.mem_cons.mp hw with rfl | hw
        · exact ⟨by rw [hslot]; exact List.mem_cons_self _ _, hord⟩
        · exact ⟨List.mem_cons_of_mem _ (h2 w hw).1, (h2 w hw).2⟩
      · rw [List.map_cons, List.pairwise_cons]
        refine ⟨?_, h3⟩
        intro q hq
        obtain ⟨w, hw, rfl⟩ := List.mem_map.mp hq
        rw [hslot]
        exact hp.1 _ (h2 w hw).1

theorem scanSlot_start (E : Env)
    (hpres : ∀ n s i, ((E.swtch n s).procs i).start = (s.procs i).start)
    (acc : Scan) (p i : Fin MAX_PROC) :
    ((scanSlot E acc p).state.procs i).start = (acc.state.procs i).start := by
  cases hst : (acc.state.procs p).start with
  | false => rw [scanSlot_skip E acc p hst]
  | true =>
    obtain ⟨v, hv, _, _, hprocs, hres⟩ := scanSlot_visit E acc p hst
    rw [hv]
    simp only [hres, set_kpgdir, hpres, hprocs, switchState, set_upgdir, set_active_proc]

theorem scanList_stable (E : Env)
    (hpres : ∀ n s i, ((E.swtch n s).procs i).start = (s.procs i).start) :
    ∀ (l : List (Fin MAX_PROC)) (acc : Scan),
      ((l.foldl (scanSlot E) acc).visits.map Visit.slot =
        acc.visits.map Visit.slot ++ l.filter (fun i => (acc.state.procs i).start)) ∧
      (∀ i, ((l.foldl (scanSlot E) acc).state.procs i).start = (acc.state.procs i).start) := by
  intro l
  induction l with
  | nil => intro acc; simp
  | cons p l ih =>
    intro acc
    rw [List.foldl_cons]
    obtain ⟨h1, h2⟩ := ih (scanSlot E acc p)
    have hs := scanSlot_start E hpres acc p
    refine ⟨?_, fun i => by rw [h2 i, hs i]⟩
    rw [h1]
    have hfil : l.filter (fun i => ((scanSlot E acc p).state.procs i).start) =
        l.filter (fun i => (acc.state.procs i).start) := by
      congr 1; funext i; rw [hs i]
    rw [hfil]
    cases hst : (acc.state.procs p).start with
    | false =>
      rw [scanSlot_skip E acc p hst]
      simp [List.filter_cons, hst]
    | true =>
      obtain ⟨v, hv, hslot, _, _, _⟩ := scanSlot_visit E acc p hst
      rw [hv]
      simp [List.filter_cons, hst, hslot]

theorem schedLoop_stable (E : Env)
    (hpres : ∀ n s i, ((E.swtch n s).procs i).start = (s.procs i).start) :
    ∀ (n : Nat) (acc : Scan),
      (schedLoop E n acc).visits.map Visit.slot =
        acc.visits.map Visit.slot ++ (List.replicate n (startedSlots acc.state)).flatten := by
  intro n
  induction n with
  | zero => intro acc; simp [schedLoop]
  | succ n ih =>
    intro acc
    obtain ⟨h1, h2⟩ := scanList_stable E hpres (List.finRange MAX_PROC) acc
    have hsame : startedSlots (schedPass E acc).state = startedSlots acc.state := by
      unfold startedSlots schedPass
      congr 1; funext i; rw [h2 i]
    rw [schedLoop, ih (schedPass E acc), hsame]
    unfold schedPass
    rw [h1]
    simp [List.replicate_succ, startedSlots]

theorem schedLoop_visits (E : Env) : ∀ (n : Nat) (acc : Scan),
    ∃ vs, (schedLoop E n acc).visits = acc.visits ++ vs ∧ ∀ v ∈ vs, v.InOrder E := by
  intro n
  induction n with
  | zero => intro acc; exact ⟨[], by simp [schedLoop], by simp⟩
  | succ n ih =>
    intro acc
    obtain ⟨vs1, h1, h2, _⟩ :=
      scanList_visits E (List.finRange MAX_PROC) acc (List.pairwise_lt_finRange MAX_PROC)
    obtain ⟨vs2, h3, h4⟩ := ih (schedPass E acc)
    refine ⟨vs1 ++ vs2, ?_, ?_⟩
    · rw [schedLoop, h3]
      unfold schedPass
      rw [h1, List.append_assoc]
    · intro v hv
      rcases List.mem_append.mp hv with hv | hv
      · exact (h2 v hv).2
      · exact h4 v hv

/-! ## C1: capacity of the process table -/

theorem createN_fill (E : Env) : ∀ (n j : Nat) (s : State), j + n = MAX_PROC →
    (∀ i : Fin MAX_PROC, (s.procs i).used = decide (i.val < j)) →
    ∃ rs s1, createN E n s = .ok (rs, s1) ∧ (∀ i, (s1.procs i).used = true) ∧
      ((∀ m, m < n → E.halloc (s.hallocCalls + m) ≠ 0) →
        rs = (List.range n).map (fun m => ((j + m : Nat) : Int))) := by
  intro n
  induction n with
  | zero =>
    intro j s hj hu
    refine ⟨[], s, rfl, ?_, fun _ => rfl⟩
    intro i
    rw [hu i]
    have := i.isLt
    simp; omega
  | succ n ih =>
    intro j s hj hu
    have hjlt : j < MAX_PROC := by omega
    have hff : FirstFree s.procs ⟨j, hjlt⟩ := by
      refine ⟨by rw [hu]; simp, ?_⟩
      intro i hi
      rw [hu]
      simpa using hi
    by_cases hb : E.halloc s.hallocCalls = 0
    · have hu1 : ∀ i : Fin MAX_PROC, ((claimed s ⟨j, hjlt⟩).procs i).used = decide (i.val < j + 1) := by
        intro i
        by_cases hij : i = ⟨j, hjlt⟩
        · subst hij; simp [claimed]
        · have : i.val ≠ j := fun h => hij (Fin.ext h)
          simp only [claimed, Function.update_noteq hij, hu i]
          simp; omega
      obtain ⟨rs, s1, hrun, hall, _⟩ := ih (j + 1) (claimed s ⟨j, hjlt⟩) (by omega) hu1
      refine ⟨-1 :: rs, s1, ?_, hall, ?_⟩
      · simp [createN, create_process_oom E s ⟨j, hjlt⟩ hff hb, hrun, bind, Except.bind]
      · intro hok
        exact absurd hb (by simpa using hok 0 (Nat.succ_pos n))
    · have hu1 : ∀ i : Fin MAX_PROC,
          ((created E s ⟨j, hjlt⟩ (E.halloc s.hallocCalls)).procs i).used = decide (i.val < j + 1) := by
        intro i
        by_cases hij : i = ⟨j, hjlt⟩
        · subst hij; simp [created]
        · have : i.val ≠ j := fun h => hij (Fin.ext h)
          simp only [created, Function.update_noteq hij, hu i]
          simp; omega
      obtain ⟨rs, s1, hrun, hall, hrs⟩ :=
        ih (j + 1) (created E s ⟨j, hjlt⟩ (E.halloc s.hallocCalls)) (by omega) hu1
      refine ⟨(j : Int) :: rs, s1, ?_, hall, ?_⟩
      · simp [createN, create_process_ok E s ⟨j, hjlt⟩ hff hb, hrun, bind, Except.bind]
      · intro hok
        have hrs1 := hrs (by
          intro m hm
          have := hok (m + 1) (by omega)
          simpa [created, Nat.add_assoc, Nat.add_comm 1 m] using this)
        rw [hrs1, List.range_succ_eq_map]
        simp [List.map_map, Function.comp, Nat.add_assoc, Nat.add_comm 1]

/-- C1. Starting from a table in which every slot is unused, and whatever the page
allocator returns, ten consecutive calls of `create_process` all return, and the
eleventh call returns -1, makes no call of `halloc` and leaves the process table (in
fact the whole state) unchanged; when the allocator succeeds on each of the ten
calls, the call number k returns index k-1. -/
theorem create_process_capacity (E : Env) (s : State)
    (hfree : ∀ i, (s.procs i).used = false) :
    ∃ rs s10, createN E MAX_PROC s = .ok (rs, s10) ∧
      (∃ s11, create_process E s10 = .ok (-1, s11) ∧
        s11.hallocCalls = s10.hallocCalls ∧ s11.procs = s10.procs ∧ s11.mem = s10.mem) ∧
      ((∀ m, m < MAX_PROC → E.halloc (s.hallocCalls + m) ≠ 0) →
        rs = [0, 1, 2, 3, 4, 5, 6, 7, 8, 9]) := by
  obtain ⟨rs, s10, hrun, hall, hrs⟩ :=
    createN_fill E MAX_PROC 0 s (by simp) (by intro i; simp [hfree i])
  refine ⟨rs, s10, hrun, ⟨s10, create_process_full E s10 hall, rfl, rfl, rfl⟩, ?_⟩
  intro hok
  rw [hrs hok]
  decide

/-- Instance of C1: the zeroed boot table with the page allocator of `exEnv`. -/
theorem create_process_capacity_witness :
    (∀ i, (exBoot.procs i).used = false) ∧
    ∃ rs s10, createN exEnv MAX_PROC exBoot = .ok (rs, s10) ∧
      (∃ s11, create_process exEnv s10 = .ok (-1, s11) ∧
        s11.hallocCalls = s10.hallocCalls ∧ s11.procs = s10.procs ∧ s11.mem = s10.mem) ∧
      ((∀ m, m < MAX_PROC → exEnv.halloc (exBoot.hallocCalls + m) ≠ 0) →
        rs = [0, 1, 2, 3, 4, 5, 6, 7, 8, 9]) :=
  ⟨by decide, create_process_capacity exEnv exBoot (by decide)⟩

/-! ## C2: placement of trapframe and context inside the stack page -/

/-- C2. When `create_process` creates a slot on the stack page at `b` (the table has
an unused slot and the allocator returns `b ≠ 0`), with `T = sizeof(struct trapframe)`
positive, `T + 24 ≤ PAGE_SIZE` and `b + PAGE_SIZE` not beyond `2^32`: the slot has
`kstack = b`, `tf = b + PAGE_SIZE - T` and `ctx = tf - 4 - 20`; hence
`ctx < tf < b + PAGE_SIZE`, `tf + T ≤ b + PAGE_SIZE` and `b ≤ ctx`, and the context
`[ctx, ctx+20)`, the return word `[tf-4, tf)` and the trapframe `[tf, tf+T)` follow each
other inside the page without overlap. -/
theorem create_process_layout (E : Env) (s : State)
    (hfree : ∃ i, (s.procs i).used = false)
    (hb : E.halloc s.hallocCalls ≠ 0)
    (hT : 0 < E.tfl.size)
    (hfit : E.tfl.size + 24 ≤ E.PAGE_SIZE)
    (hwrap : E.halloc s.hallocCalls + E.PAGE_SIZE ≤ 4294967296) :
    ∃ (k : Fin MAX_PROC) (s1 : State),
      create_process E s = .ok ((k.val : Int), s1) ∧ FirstFree s.procs k ∧
      (s1.procs k).used = true ∧
      (s1.procs k).kstack = E.halloc s.hallocCalls ∧
      (s1.procs k).tf = (s1.procs k).kstack + E.PAGE_SIZE - E.tfl.size ∧
      (s1.procs k).ctx = (s1.procs k).tf - 4 - CONTEXT_SIZE ∧
      (s1.procs k).ctx < (s1.procs k).tf ∧
      (s1.procs k).tf < (s1.procs k).kstack + E.PAGE_SIZE ∧
      (s1.procs k).tf + E.tfl.size ≤ (s1.procs k).kstack + E.PAGE_SIZE ∧
      (s1.procs k).kstack ≤ (s1.procs k).ctx ∧
      (s1.procs k).ctx + CONTEXT_SIZE + 4 = (s1.procs k).tf := by
  obtain ⟨k, hk⟩ := exists_firstFree s.procs hfree
  refine ⟨k, _, create_process_ok E s k hk hb, hk, ?_⟩
  obtain ⟨h1, _, h3⟩ := carve_nowrap E _ hT hfit hwrap
  simp only [created, Function.update_same, h1, h3, CONTEXT_SIZE]
  refine ⟨trivial, trivial, trivial, ?_, ?_, ?_, ?_, ?_, ?_⟩ <;> omega

/-- Instance of C2: the first process created at boot on the page at `0x200000`. -/
theorem create_process_layout_witness :
    ∃ (k : Fin MAX_PROC) (s1 : State),
      create_process exEnv exBoot = .ok ((k.val : Int), s1) ∧ FirstFree exBoot.procs k ∧
      (s1.procs k).used = true ∧
      (s1.procs k).kstack = exEnv.halloc exBoot.hallocCalls ∧
      (s1.procs k).tf = (s1.procs k).kstack + exEnv.PAGE_SIZE - exEnv.tfl.size ∧
      (s1.procs k).ctx = (s1.procs k).tf - 4 - CONTEXT_SIZE ∧
      (s1.procs k).ctx < (s1.procs k).tf ∧
      (s1.procs k).tf < (s1.procs k).kstack + exEnv.PAGE_SIZE ∧
      (s1.procs k).tf + exEnv.tfl.size ≤ (s1.procs k).kstack + exEnv.PAGE_SIZE ∧
      (s1.procs k).kstack ≤ (s1.procs k).ctx ∧
      (s1.procs k).ctx + CONTEXT_SIZE + 4 = (s1.procs k).tf :=
  create_process_layout exEnv exBoot ⟨0, by decide⟩ (by decide) (by decide) (by decide) (by decide)

/-! ## C3: the scheduler selects started slots only, in ascending order -/

theorem startedSlots_pair (s : State) (A B : Fin MAX_PROC) (hAB : A < B)
    (h : ∀ i, (s.procs i).start = true ↔ (i = A ∨ i = B)) : startedSlots s = [A, B] := by
  have hsorted : (startedSlots s).Sorted (· < ·) :=
    (List.pairwise_lt_finRange MAX_PROC).sublist (List.filter_sublist _)
  have hsorted2 : [A, B].Sorted (· < ·) := by simp [List.Sorted, hAB]
  refine List.eq_of_perm_of_sorted ?_ hsorted hsorted2
  rw [List.perm_ext_iff_of_nodup hsorted.nodup hsorted2.nodup]
  intro i
  simp [startedSlots, List.mem_filter, List.mem_finRange, h i]

/-- C3. In every pass of the scheduler scan the slots switched into come in strictly
ascending index order and each had `start == 1` when it was selected; the same holds
of every switch of any number of passes.  When the environment leaves the start flags
alone, a pass switches into exactly the indices with `start == 1` in ascending order
and `n` passes repeat that list `n` times; so with exactly two started slots `A < B`
two passes visit `A, B, A, B`, and a slot that is not started is visited in no pass. -/
theorem scheduler_round_robin (E : Env) (acc : Scan) :
    (∃ vs, (schedPass E acc).visits = acc.visits ++ vs ∧
      (vs.map Visit.slot).Pairwise (· < ·) ∧
      ∀ v ∈ vs, (v.atSwitch.procs v.slot).start = true) ∧
    (∀ n, ∃ vs, (schedLoop E n acc).visits = acc.visits ++ vs ∧
      ∀ v ∈ vs, (v.atSwitch.procs v.slot).start = true) ∧
    ((∀ n s i, ((E.swtch n s).procs i).start = (s.procs i).start) →
      (schedPass E acc).visits.map Visit.slot =
        acc.visits.map Visit.slot ++ startedSlots acc.state ∧
      (∀ n, (schedLoop E n acc).visits.map Visit.slot =
        acc.visits.map Visit.slot ++ (List.replicate n (startedSlots acc.state)).flatten) ∧
      (∀ A B : Fin MAX_PROC, A < B →
        (∀ i, (acc.state.procs i).start = true ↔ (i = A ∨ i = B)) →
        (schedLoop E 2 acc).visits.map Visit.slot =
          acc.visits.map Visit.slot ++ [A, B, A, B]) ∧
      (∀ (n : Nat) (C : Fin MAX_PROC), (acc.state.procs C).start = false →
        ∀ vs, (schedLoop E n acc).visits = acc.visits ++ vs → C ∉ vs.map Visit.slot)) := by
  refine ⟨?_, ?_, ?_⟩
  · obtain ⟨vs, h1, h2, h3⟩ :=
      scanList_visits E (List.finRange MAX_PROC) acc (List.pairwise_lt_finRange MAX_PROC)
    exact ⟨vs, h1, h3, fun v hv => (h2 v hv).2.1⟩
  · intro n
    obtain ⟨vs, h1, h2⟩ := schedLoop_visits E n acc
    exact ⟨vs, h1, fun v hv => (h2 v hv).1⟩
  · intro hpres
    refine ⟨?_, fun n => schedLoop_stable E hpres n acc, ?_, ?_⟩
    · exact (scanList_stable E hpres (List.finRange MAX_PROC) acc).1
    · intro A B hAB h
      rw [schedLoop_stable E hpres 2 acc, startedSlots_pair acc.state A B hAB h]
      simp [List.replicate]
    · intro n C hC vs hvs hmem
      have hmap := schedLoop_stable E hpres n acc
      rw [hvs, List.map_append, List.append_cancel_left_eq] at hmap
      rw [hmap, List.mem_flatten] at hmem
      obtain ⟨l, hl, hCl⟩ := hmem
      rw [List.eq_of_mem_replicate hl] at hCl
      simp [startedSlots, hC] at hCl

/-- Instance of C3: slots 1 and 2 started, slot 3 claimed but not started, processes
that leave the table alone; two passes switch into 1, 2, 1, 2. -/
theorem scheduler_round_robin_witness :
    (∀ n s i, ((exEnv.swtch n s).procs i).start = (s.procs i).start) ∧
    (1 : Fin MAX_PROC) < 2 ∧
    (∀ i, (exSchedState.procs i).start = true ↔ (i = 1 ∨ i = 2)) ∧
    (exSchedState.procs 3).start = false ∧
    (schedLoop exEnv 2 ⟨[], 0, exSchedState⟩).visits.map Visit.slot = [1, 2, 1, 2] :=
  ⟨fun _ _ _ => rfl, by decide, by decide, by decide,
    ((scheduler_round_robin exEnv ⟨[], 0, exSchedState⟩).2.2 (fun _ _ _ => rfl)).2.2.1 1 2
      (by decide) (by decide)⟩

/-! ## C4: `fork` on success -/

theorem forked_child_byte (E : Env) (s : State) (k c : Fin MAX_PROC) (b j : Nat)
    (hL : E.tfl.WF) (hfit : E.tfl.size + 24 ≤ E.PAGE_SIZE)
    (hwrap : b + E.PAGE_SIZE ≤ 4294967296)
    (hptf : (s.procs c).tf + E.tfl.size ≤ 4294967296)
    (hfresh : (s.procs c).tf + E.tfl.size ≤ b ∨ b + E.PAGE_SIZE ≤ (s.procs c).tf)
    (hj : j < E.tfl.size) (hcov : ¬ E.tfl.eax.covers j) :
    (forked E s k c b).mem (tfAddr E b + j) = s.mem ((s.procs c).tf + j) := by
  have hin := hL.1 E.tfl.eax (by simp)
  unfold Field.within at hin
  unfold Field.covers at hcov
  have hT : 0 < E.tfl.size := by omega
  obtain ⟨h1, h2, h3⟩ := carve_nowrap E b hT hfit hwrap
  simp only [forked]
  rw [writeField_out _ _ _ _ _ (by omega) (by omega) (by omega),
    writeField_out _ _ _ _ _ (by omega) (by omega) (by omega),
    memcpy_in _ _ _ _ _ (by omega) hptf hj,
    created_mem_out E s k b _ hT hfit hwrap (by omega) (by omega)]

/-- C4. When the table has an unused slot, the allocator returns a fresh page at
`b ≠ 0` (inside the address space, large enough, and not overlapping the trapframe
of the caller) and `currproc` is a runnable process in slot `c` (used, started,
`pid = c`): `fork` returns; with `k` the index `create_process` returned, in the
trapframe of the parent `eax` is `k`, in the trapframe of the child `eax` is 0, every
byte of the trapframe of the child outside `eax` (so every other member) equals the
corresponding one of the trapframe of the parent before the call, the child slot has
`start = 1` and `pid = k`, and `k` differs from `c` and from the pid of the parent. -/
theorem fork_semantics (E : Env) (s : State) (c : Fin MAX_PROC)
    (hfree : ∃ i, (s.procs i).used = false)
    (hb : E.halloc s.hallocCalls ≠ 0)
    (hcur : s.currproc = some c.val)
    (hrun : (s.procs c).used = true ∧ (s.procs c).start = true ∧ (s.procs c).pid = c.val)
    (hL : E.tfl.WF)
    (hfit : E.tfl.size + 24 ≤ E.PAGE_SIZE)
    (hwrap : E.halloc s.hallocCalls + E.PAGE_SIZE ≤ 4294967296)
    (hptf : (s.procs c).tf + E.tfl.size ≤ 4294967296)
    (hfresh : (s.procs c).tf + E.tfl.size ≤ E.halloc s.hallocCalls ∨
      E.halloc s.hallocCalls + E.PAGE_SIZE ≤ (s.procs c).tf) :
    ∃ (k : Fin MAX_PROC) (s1 s2 : State),
      create_process E s = .ok ((k.val : Int), s1) ∧ fork E s = .ok s2 ∧
      readField s2.mem (s2.procs c).tf E.tfl.eax = k.val ∧
      readField s2.mem (s2.procs k).tf E.tfl.eax = 0 ∧
      (∀ j, j < E.tfl.size → ¬ E.tfl.eax.covers j →
        s2.mem ((s2.procs k).tf + j) = s.mem ((s.procs c).tf + j)) ∧
      (∀ g : Field, g.off + g.width ≤ E.tfl.size → g.disjoint E.tfl.eax →
        readField s2.mem (s2.procs k).tf g = readField s.mem (s.procs c).tf g) ∧
      (s2.procs k).start = true ∧
      (s2.procs k).pid = k.val ∧
      k ≠ c ∧
      (s2.procs k).pid ≠ (s2.procs c).pid ∧
      s2.procs c = s.procs c := by
  obtain ⟨k, hk⟩ := exists_firstFree s.procs hfree
  have hck : c ≠ k := by
    intro h
    rw [h, hk.1] at hrun
    exact absurd hrun.1 (by simp)
  have hin := hL.1 E.tfl.eax (by simp)
  have hw : E.tfl.eax.width = 4 := hL.2.2.2.1
  unfold Field.within at hin
  have hT : 0 < E.tfl.size := by omega
  obtain ⟨h1, h2, h3⟩ := carve_nowrap E (E.halloc s.hallocCalls) hT hfit hwrap
  have hkk : k.val < 10 := k.isLt
  refine ⟨k, _, _, create_process_ok E s k hk hb, fork_ok E s k c hk hb hcur hck, ?_⟩
  have hpc : (forked E s k c (E.halloc s.hallocCalls)).procs c = s.procs c := by
    simp [forked, Function.update_noteq hck]
  have hpk : ((forked E s k c (E.halloc s.hallocCalls)).procs k).tf =
      tfAddr E (E.halloc s.hallocCalls) := by
    simp [forked]
  rw [hpc, hpk]
  refine ⟨?_, ?_, ?_, ?_, by simp [forked], by simp [forked], fun h => hck h.symm, ?_, rfl⟩
  · have : readField (forked E s k c (E.halloc s.hallocCalls)).mem (s.procs c).tf E.tfl.eax =
        readField (writeField (memcpy (created E s k (E.halloc s.hallocCalls)).mem
          (tfAddr E (E.halloc s.hallocCalls)) (s.procs c).tf E.tfl.size)
          (s.procs c).tf E.tfl.eax k.val) (s.procs c).tf E.tfl.eax := by
      apply readField_agree _ _ _ _ (by omega)
      intro x hx1 hx2
      simp only [forked]
      exact writeField_out _ _ _ _ _ (by omega) (by omega) (by omega)
    rw [this, readField_writeField_same _ _ _ _ hin.2.1, hw]
    exact Nat.mod_eq_of_lt (by norm_num; omega)
  · simp only [forked]
    rw [readField_writeField_same _ _ _ _ hin.2.1]
    simp
  · intro j hj hcov
    exact forked_child_byte E s k c _ j hL hfit hwrap hptf hfresh hj hcov
  · intro g hg hd
    apply readField_congr2 _ _ _ _ _ (by omega) (by omega)
    intro i hi
    apply forked_child_byte E s k c _ _ hL hfit hwrap hptf hfresh (by omega)
    unfold Field.disjoint at hd
    unfold Field.covers
    omega
  · have : ((forked E s k c (E.halloc s.hallocCalls)).procs k).pid = k.val := by simp [forked]
    rw [this, hrun.2.2]
    exact fun h => hck (Fin.ext h.symm)

/-- Instance of C4: the init process of the example machine forks. -/
theorem fork_semantics_witness :
    ∃ (k : Fin MAX_PROC) (s1 s2 : State),
      create_process exEnv exRunning = .ok ((k.val : Int), s1) ∧ fork exEnv exRunning = .ok s2 ∧
      readField s2.mem (s2.procs 0).tf exEnv.tfl.eax = k.val ∧
      readField s2.mem (s2.procs k).tf exEnv.tfl.eax = 0 ∧
      (∀ j, j < exEnv.tfl.size → ¬ exEnv.tfl.eax.covers j →
        s2.mem ((s2.procs k).tf + j) = exRunning.mem ((exRunning.procs 0).tf + j)) ∧
      (∀ g : Field, g.off + g.width ≤ exEnv.tfl.size → g.disjoint exEnv.tfl.eax →
        readField s2.mem (s2.procs k).tf g = readField exRunning.mem (exRunning.procs 0).tf g) ∧
      (s2.procs k).start = true ∧
      (s2.procs k).pid = k.val ∧
      k ≠ 0 ∧
      (s2.procs k).pid ≠ (s2.procs 0).pid ∧
      s2.procs 0 = exRunning.procs 0 :=
  fork_semantics exEnv exRunning 0 ⟨1, by decide⟩ (by decide) rfl (by decide) (by decide)
    (by decide) (by decide) (by decide) (by decide)

/-! ## C5: `fork` on a full table -/

/-- C5, what the code does.  When all `MAX_PROC` slots are used, `create_process`
returns -1 and `fork`, which does not test the result, converts it to the index
`4294967295` and accesses `procs[4294967295]`, outside the table: no result is
delivered to the caller.  The same holds when `fork` is reached through `trap` with
vector `0x80` and syscall number 5: `trap` does not return, and with `currproc`
pointing into the table it stops at that same access. -/
theorem fork_full_table_fault (E : Env) (s : State) (tf : Nat)
    (hfull : ∀ i, (s.procs i).used = true) :
    create_process E s = .ok (-1, s) ∧
    fork E s = .error (.procIndex 4294967295) ∧
    (readField s.mem tf E.tfl.trapno = 0x80 → readField s.mem tf E.tfl.eax = 5 →
      (∃ f, trap E s tf = .error f) ∧
      ∀ c : Fin MAX_PROC, s.currproc = some c.val →
        trap E s tf = .error (.procIndex 4294967295)) :=
  ⟨create_process_full E s hfull, fork_full E s hfull,
    fun hno hnum => trap_syscall_fault E s tf _ hno hnum (fork_full E s hfull)⟩

/-- Instance of C5: the full example table, the process of slot 0 calling `fork`
through `int 0x80`. -/
theorem fork_full_table_fault_witness :
    (∀ i, (exFullSyscall.procs i).used = true) ∧
    readField exFullSyscall.mem (exFullSyscall.procs 0).tf exEnv.tfl.trapno = 0x80 ∧
    readField exFullSyscall.mem (exFullSyscall.procs 0).tf exEnv.tfl.eax = 5 ∧
    fork exEnv exFullSyscall = .error (.procIndex 4294967295) ∧
    trap exEnv exFullSyscall (exFullSyscall.procs 0).tf = .error (.procIndex 4294967295) :=
  have h := fork_full_table_fault exEnv exFullSyscall (exFullSyscall.procs 0).tf (by decide)
  ⟨by decide, by decide, by decide, h.2.1, (h.2.2 (by decide) (by decide)).2 0 rfl⟩

/-! ## C6: `trap` and the yield -/

/-- C6, what the code does.  For the vectors `0x21` and `0x24` and for every
unrecognised vector `trap` returns, and its direct calls are the device handler (none
for an unrecognised vector) followed by one call of `sched`, made in the state the
handler left.  For vector `0x80` the same holds (calls `call_syscall`, then `sched`,
with the result written to `eax`) only when the read of `currproc->pid` and the
syscall dispatch both return; when either faults, `trap` faults with it and never
calls `sched`.  That happens for syscall number 5 whenever `fork` runs into its
unchecked failure of `create_process`: on a full table, and when the allocator returns
0. -/
theorem trap_dispatch (E : Env) (s : State) (tf : Nat) :
    (readField s.mem tf E.tfl.trapno = 0x21 →
      trap E s tf =
        .ok ⟨[Call.keyboard, Call.sched], E.keyboard s, sched E (E.keyboard s)⟩) ∧
    (readField s.mem tf E.tfl.trapno = 0x24 →
      trap E s tf = .ok ⟨[Call.uart, Call.sched], E.uart s, sched E (E.uart s)⟩) ∧
    (readField s.mem tf E.tfl.trapno ≠ 0x21 → readField s.mem tf E.tfl.trapno ≠ 0x24 →
      readField s.mem tf E.tfl.trapno ≠ 0x80 →
      trap E s tf = .ok ⟨[Call.sched], s, sched E s⟩) ∧
    (readField s.mem tf E.tfl.trapno = 0x80 → ∀ cur v s1, getCurrproc s = .ok cur →
      call_syscall E s tf = .ok (v, s1) →
      trap E s tf =
        .ok ⟨[Call.syscall, Call.sched], { s1 with mem := writeField s1.mem tf E.tfl.eax v },
          sched E { s1 with mem := writeField s1.mem tf E.tfl.eax v }⟩) ∧
    (readField s.mem tf E.tfl.trapno = 0x80 → ∀ f, getCurrproc s = .error f →
      trap E s tf = .error f) ∧
    (readField s.mem tf E.tfl.trapno = 0x80 → ∀ cur f, getCurrproc s = .ok cur →
      call_syscall E s tf = .error f → trap E s tf = .error f) ∧
    (readField s.mem tf E.tfl.trapno = 0x80 → readField s.mem tf E.tfl.eax = 5 →
      (∀ i, (s.procs i).used = true) →
      (∃ f, trap E s tf = .error f) ∧
      ∀ c : Fin MAX_PROC, s.currproc = some c.val →
        trap E s tf = .error (.procIndex 4294967295)) ∧
    (readField s.mem tf E.tfl.trapno = 0x80 → readField s.mem tf E.tfl.eax = 5 →
      (∃ i, (s.procs i).used = false) → E.halloc s.hallocCalls = 0 →
      (∃ f, trap E s tf = .error f) ∧
      ∀ c : Fin MAX_PROC, s.currproc = some c.val →
        trap E s tf = .error (.procIndex 4294967295)) := by
  refine ⟨?_, ?_, ?_, ?_, ?_, ?_, ?_, ?_⟩
  · intro h
    simp [trap, h, bind, Except.bind, pure, Except.pure]
  · intro h
    simp [trap, h, bind, Except.bind, pure, Except.pure]
  · intro h1 h2 h3
    simp [trap, h1, h2, h3, bind, Except.bind, pure, Except.pure]
  · intro h cur v s1 hc hv
    simp [trap, h, hc, hv, bind, Except.bind, pure, Except.pure]
  · intro h f hc
    simp [trap, h, hc, bind, Except.bind]
  · intro h cur f hc hv
    simp [trap, h, hc, hv, bind, Except.bind]
  · intro hno hnum hfull
    exact trap_syscall_fault E s tf _ hno hnum (fork_full E s hfull)
  · intro hno hnum hfree hb
    obtain ⟨k, hk⟩ := exists_firstFree s.procs hfree
    exact trap_syscall_fault E s tf _ hno hnum (fork_oom E s k hk hb)

/-- Instance of C6: on the full example table the process of slot 0 enters `trap`
with vector `0x80` and syscall number 5; `trap` stops in `fork` at the access to
`procs[4294967295]` and returns no run, so no call of `sched` is made. -/
theorem trap_dispatch_witness :
    readField exFullSyscall.mem (exFullSyscall.procs 0).tf exEnv.tfl.trapno = 0x80 ∧
    readField exFullSyscall.mem (exFullSyscall.procs 0).tf exEnv.tfl.eax = 5 ∧
    (∀ i, (exFullSyscall.procs i).used = true) ∧
    exFullSyscall.currproc = some 0 ∧
    trap exEnv exFullSyscall (exFullSyscall.procs 0).tf = .error (.procIndex 4294967295) ∧
    ∀ r, trap exEnv exFullSyscall (exFullSyscall.procs 0).tf ≠ .ok r :=
  have h := ((trap_dispatch exEnv exFullSyscall (exFullSyscall.procs 0).tf).2.2.2.2.2.2.1
    (by decide) (by decide) (by decide)).2 0 rfl
  ⟨by decide, by decide, by decide, rfl, h, fun r hr => by rw [h] at hr; cases hr⟩

/-! ## C7: the machine state at every switch-in -/

/-- C7. At every call `swtch(&sched_proc.ctx, procs[p].ctx)` made by the scheduler
loop, in any number of passes: `currproc` points at slot `p`, `tss_entry.esp0` equals
`(procs[p].kstack + PAGE_SIZE) mod 2^32`, the address space activated last is the user
space `procs[p].pgdir`, and the context switched to is `procs[p].ctx`; when the switch
has returned, the kernel address space is active in the state in which the scan goes
on.  For a single slot: the scan leaves a started slot `p` in exactly the state
`set_kpgdir` produced from what `swtch` returned, and leaves a slot that is not
started without any effect. -/
theorem scheduler_switch_in (E : Env) (acc : Scan) :
    (∀ n, ∃ vs, (schedLoop E n acc).visits = acc.visits ++ vs ∧
      ∀ v ∈ vs,
        v.atSwitch.currproc = some v.slot.val ∧
        v.atSwitch.esp0 = ((v.atSwitch.procs v.slot).kstack + E.PAGE_SIZE) % 4294967296 ∧
        v.atSwitch.space = .user (v.atSwitch.procs v.slot).pgdir ∧
        v.ctx = (v.atSwitch.procs v.slot).ctx ∧
        v.resumed.space = .kernel) ∧
    (∀ p : Fin MAX_PROC, (acc.state.procs p).start = true →
      ∃ v : Visit, scanSlot E acc p = ⟨acc.visits ++ [v], acc.tick + 1, v.resumed⟩ ∧
        v.slot = p ∧ v.atSwitch = switchState E acc.state p ∧
        v.resumed = set_kpgdir (E.swtch acc.tick v.atSwitch) ∧
        (scanSlot E acc p).state.space = .kernel) ∧
    (∀ p : Fin MAX_PROC, (acc.state.procs p).start = false → scanSlot E acc p = acc) := by
  refine ⟨?_, ?_, fun p hp => scanSlot_skip E acc p hp⟩
  · intro n
    obtain ⟨vs, h1, h2⟩ := schedLoop_visits E n acc
    refine ⟨vs, h1, fun v hv => ?_⟩
    obtain ⟨_, a, b, c, d, e⟩ := h2 v hv
    exact ⟨a, b, c, d, e⟩
  · intro p hp
    obtain ⟨v, hv, hslot, _, hat, hres⟩ := scanSlot_visit E acc p hp
    refine ⟨v, hv, hslot, hat, hres, ?_⟩
    rw [hv, hres]
    rfl

/-- Instance of C7: scanning slot 1 of the example table switches into it and
leaves the kernel address space active. -/
theorem scheduler_switch_in_witness :
    (exSchedState.procs 1).start = true ∧
    ∃ v : Visit, scanSlot exEnv ⟨[], 0, exSchedState⟩ 1 = ⟨[] ++ [v], 0 + 1, v.resumed⟩ ∧
      v.slot = 1 ∧ v.atSwitch = switchState exEnv exSchedState 1 ∧
      v.resumed = set_kpgdir (exEnv.swtch 0 v.atSwitch) ∧
      (scanSlot exEnv ⟨[], 0, exSchedState⟩ 1).state.space = .kernel :=
  ⟨by decide, (scheduler_switch_in exEnv ⟨[], 0, exSchedState⟩).2.1 1 (by decide)⟩

/-! ## C8: allocation failure in `create_process` leaks the slot -/

theorem create_process_cases (E : Env) (s : State) :
    ((∀ i, (s.procs i).used = true) ∧ create_process E s = .ok (-1, s)) ∨
    (∃ k, FirstFree s.procs k ∧ E.halloc s.hallocCalls = 0 ∧
      create_process E s = .ok (-1, claimed s k)) ∨
    (∃ k, FirstFree s.procs k ∧ E.halloc s.hallocCalls ≠ 0 ∧
      create_process E s = .ok ((k.val : Int), created E s k (E.halloc s.hallocCalls))) := by
  by_cases hfull : ∀ i, (s.procs i).used = true
  · exact Or.inl ⟨hfull, create_process_full E s hfull⟩
  · have hfree : ∃ i, (s.procs i).used = false := by
      by_contra hcon
      apply hfull
      intro i
      by_contra hi
      exact hcon ⟨i, by simpa using hi⟩
    obtain ⟨k, hk⟩ := exists_firstFree s.procs hfree
    by_cases hb : E.halloc s.hallocCalls = 0
    · exact Or.inr (Or.inl ⟨k, hk, hb, create_process_oom E s k hk hb⟩)
    · exact Or.inr (Or.inr ⟨k, hk, hb, create_process_ok E s k hk hb⟩)

theorem create_process_keeps_used (E : Env) (s s1 : State) (r : Int) (i : Fin MAX_PROC)
    (h : create_process E s = .ok (r, s1)) (hi : (s.procs i).used = true) :
    s1.procs i = s.procs i ∧ r ≠ (i.val : Int) := by
  have hi10 : i.val < 10 := i.isLt
  rcases create_process_cases E s with ⟨_, hc⟩ | ⟨k, hk, _, hc⟩ | ⟨k, hk, _, hc⟩
  · rw [hc] at h
    simp only [Except.ok.injEq, Prod.mk.injEq] at h
    obtain ⟨rfl, rfl⟩ := h
    exact ⟨rfl, by omega⟩
  · rw [hc] at h
    simp only [Except.ok.injEq, Prod.mk.injEq] at h
    obtain ⟨rfl, rfl⟩ := h
    have hik : i ≠ k := by
      intro e; rw [e, hk.1] at hi; cases hi
    exact ⟨by simp [claimed, Function.update_noteq hik], by omega⟩
  · rw [hc] at h
    simp only [Except.ok.injEq, Prod.mk.injEq] at h
    obtain ⟨rfl, rfl⟩ := h
    have hik : i ≠ k := by
      intro e; rw [e, hk.1] at hi; cases hi
    refine ⟨by simp [created, Function.update_noteq hik], ?_⟩
    intro e
    exact hik (Fin.ext (by omega))

theorem setup_init_proc_keeps_used (E : Env) (s s1 : State) (i : Fin MAX_PROC)
    (h : setup_init_proc E s = .ok s1) (hi : (s.procs i).used = true) :
    s1.procs i = s.procs i := by
  rcases create_process_cases E s with ⟨_, hc⟩ | ⟨k, hk, _, hc⟩ | ⟨k, hk, hb, hc⟩
  · unfold setup_init_proc at h
    rw [hc] at h
    simp [bind, Except.bind, toU32_neg_one, setup_user, setProc_oob _ 4294967295 _ (by decide)] at h
  · unfold setup_init_proc at h
    rw [hc] at h
    simp [bind, Except.bind, toU32_neg_one, setup_user, setProc_oob _ 4294967295 _ (by decide)] at h
  · rw [setup_init_proc_ok E s k hk hb] at h
    simp only [Except.ok.injEq] at h
    subst h
    have hik : i ≠ k := by
      intro e; rw [e, hk.1] at hi; cases hi
    simp [initialised, Function.update_noteq hik]

theorem fork_keeps_used (E : Env) (s s1 : State) (i : Fin MAX_PROC)
    (h : fork E s = .ok s1) (hi : (s.procs i).used = true) :
    s1.procs i = s.procs i := by
  rcases create_process_cases E s with ⟨_, hc⟩ | ⟨k, hk, _, hc⟩ | ⟨k, hk, hb, hc⟩
  · unfold fork at h
    rw [hc] at h
    simp [bind, Except.bind, toU32_neg_one, setup_user, setProc_oob _ 4294967295 _ (by decide)] at h
  · unfold fork at h
    rw [hc] at h
    simp [bind, Except.bind, toU32_neg_one, setup_user, setProc_oob _ 4294967295 _ (by decide)] at h
  · have hik : i ≠ k := by
      intro e; rw [e, hk.1] at hi; cases hi
    unfold fork at h
    rw [hc] at h
    simp only [bind, Except.bind, toU32_fin, setProc_fin, setup_user, getProc_fin] at h
    split at h
    · cases h
    · simp only [Except.ok.injEq] at h
      subst h
      simp [created, copy_user_space, Function.update_noteq hik]

theorem Op.run_keeps_leak (E : Env) (s s1 : State) (op : Op) (rs : List Int) (k : Fin MAX_PROC)
    (h : op.run E s = .ok (rs, s1)) (hu : (s.procs k).used = true) :
    s1.procs k = s.procs k ∧ (k.val : Int) ∉ rs := by
  cases op with
  | create =>
    simp only [Op.run, bind, Except.bind] at h
    split at h
    · cases h
    · rename_i v hv
      simp only [Except.ok.injEq, Prod.mk.injEq] at h
      obtain ⟨rfl, rfl⟩ := h
      obtain ⟨h1, h2⟩ := create_process_keeps_used E s v.2 v.1 k hv hu
      exact ⟨h1, by simpa using fun e => h2 e.symm⟩
  | init =>
    simp only [Op.run, bind, Except.bind] at h
    split at h
    · cases h
    · rename_i v hv
      split at h
      · cases h
      · rename_i s2 hs2
        simp only [Except.ok.injEq, Prod.mk.injEq] at h
        obtain ⟨rfl, rfl⟩ := h
        obtain ⟨_, h2⟩ := create_process_keeps_used E s v.2 v.1 k hv hu
        exact ⟨setup_init_proc_keeps_used E s s2 k hs2 hu, by simpa using fun e => h2 e.symm⟩
  | fork =>
    simp only [Op.run, bind, Except.bind] at h
    split at h
    · cases h
    · rename_i v hv
      split at h
      · cases h
      · rename_i s2 hs2
        simp only [Except.ok.injEq, Prod.mk.injEq] at h
        obtain ⟨rfl, rfl⟩ := h
        obtain ⟨_, h2⟩ := create_process_keeps_used E s v.2 v.1 k hv hu
        exact ⟨fork_keeps_used E s s2 k hs2 hu, by simpa using fun e => h2 e.symm⟩
  | activate p =>
    simp only [Op.run, Except.ok.injEq, Prod.mk.injEq] at h
    obtain ⟨rfl, rfl⟩ := h
    exact ⟨rfl, by simp⟩

theorem runOps_keeps_leak (E : Env) (k : Fin MAX_PROC) : ∀ (ops : List Op) (s : State),
    (s.procs k).used = true →
    (runOps E ops s).2.procs k = s.procs k ∧ (k.val : Int) ∉ (runOps E ops s).1 := by
  intro ops
  induction ops with
  | nil => intro s _; simp [runOps]
  | cons op ops ih =>
    intro s hu
    simp only [runOps]
    split
    · rename_i rs s1 hrun
      obtain ⟨h1, h2⟩ := Op.run_keeps_leak E s s1 op rs k hrun hu
      obtain ⟨h3, h4⟩ := ih s1 (by rw [h1]; exact hu)
      exact ⟨by rw [h3, h1], by simp [h2, h4]⟩
    · simp

/-- C8. For every table with an unused slot, if the page allocator returns 0 then
`create_process` returns -1 and the lowest-index unused slot `k` is left with
`used = 1` while its `kstack`, `tf`, `ctx`, `start`, `pid` and `pgdir`, all other
slots and kernel memory are unchanged.  From then on, through every sequence of later
calls of `create_process`, `setup_init_proc`, `fork` and `set_active_proc` (carried
out until one faults), the entry of slot `k` never changes again, so it stays used,
it keeps `start = 0` if it had `start = 0`, and no call of `create_process` returns
`k`. -/
theorem create_process_oom_leak (E : Env) (s : State)
    (hfree : ∃ i, (s.procs i).used = false)
    (hb : E.halloc s.hallocCalls = 0) :
    ∃ (k : Fin MAX_PROC) (s1 : State),
      FirstFree s.procs k ∧ create_process E s = .ok (-1, s1) ∧
      s1.procs k = { s.procs k with used := true } ∧
      (∀ i, i ≠ k → s1.procs i = s.procs i) ∧
      s1.mem = s.mem ∧
      (∀ ops : List Op,
        (runOps E ops s1).2.procs k = s1.procs k ∧
        ((runOps E ops s1).2.procs k).used = true ∧
        ((s.procs k).start = false → ((runOps E ops s1).2.procs k).start = false) ∧
        (k.val : Int) ∉ (runOps E ops s1).1) := by
  obtain ⟨k, hk⟩ := exists_firstFree s.procs hfree
  have hu : ((claimed s k).procs k).used = true := by simp [claimed]
  refine ⟨k, claimed s k, hk, create_process_oom E s k hk hb, by simp [claimed], ?_, rfl, ?_⟩
  · intro i hik
    simp [claimed, Function.update_noteq hik]
  · intro ops
    obtain ⟨h1, h2⟩ := runOps_keeps_leak E k ops (claimed s k) hu
    refine ⟨h1, by rw [h1]; exact hu, ?_, h2⟩
    intro hst
    rw [h1]
    simpa [claimed] using hst

/-- Instance of C8: the first `create_process` at boot with an allocator that fails. -/
theorem create_process_oom_leak_witness :
    ∃ (k : Fin MAX_PROC) (s1 : State),
      FirstFree exBoot.procs k ∧ create_process exEnvOom exBoot = .ok (-1, s1) ∧
      s1.procs k = { exBoot.procs k with used := true } ∧
      (∀ i, i ≠ k → s1.procs i = exBoot.procs i) ∧
      s1.mem = exBoot.mem ∧
      (∀ ops : List Op,
        (runOps exEnvOom ops s1).2.procs k = s1.procs k ∧
        ((runOps exEnvOom ops s1).2.procs k).used = true ∧
        ((exBoot.procs k).start = false → ((runOps exEnvOom ops s1).2.procs k).start = false) ∧
        (k.val : Int) ∉ (runOps exEnvOom ops s1).1) :=
  create_process_oom_leak exEnvOom exBoot ⟨0, by decide⟩ (by decide)

/-! ## C9: `fork` through the syscall vector -/

theorem initImage_out (E : Env) (m : Mem) (tf x : Nat) (hL : E.tfl.WF)
    (hnw : tf + E.tfl.size ≤ 4294967296) (hx : x < 4294967296)
    (h : x < tf ∨ tf + E.tfl.size ≤ x) : initImage E m tf x = m x := by
  simp only [TfLayout.WF, TfLayout.initFields, List.forall_mem_cons, Field.within] at hL
  obtain ⟨⟨_, _, h1, h2, h3, h4, h5, h6, h7, _⟩, _⟩ := hL
  unfold initImage
  rw [writeField_out _ _ _ _ _ (by omega) hx (by omega),
    writeField_out _ _ _ _ _ (by omega) hx (by omega),
    writeField_out _ _ _ _ _ (by omega) hx (by omega),
    writeField_out _ _ _ _ _ (by omega) hx (by omega),
    writeField_out _ _ _ _ _ (by omega) hx (by omega),
    writeField_out _ _ _ _ _ (by omega) hx (by omega),
    writeField_out _ _ _ _ _ (by omega) hx (by omega),
    memset_out _ _ _ _ _ hnw hx h]

theorem initImage_zero (E : Env) (m : Mem) (tf j : Nat) (hL : E.tfl.WF)
    (hnw : tf + E.tfl.size ≤ 4294967296) (hj : j < E.tfl.size)
    (h : ∀ f ∈ E.tfl.initFields, ¬ f.covers j) : initImage E m tf (tf + j) = 0 := by
  simp only [TfLayout.WF, TfLayout.initFields, List.forall_mem_cons, Field.within] at hL
  obtain ⟨⟨_, _, h1, h2, h3, h4, h5, h6, h7, _⟩, _⟩ := hL
  simp only [TfLayout.initFields, List.forall_mem_cons, Field.covers] at h
  obtain ⟨c1, c2, c3, c4, c5, c6, c7, _⟩ := h
  unfold initImage
  rw [writeField_out _ _ _ _ _ (by omega) (by omega) (by omega),
    writeField_out _ _ _ _ _ (by omega) (by omega) (by omega),
    writeField_out _ _ _ _ _ (by omega) (by omega) (by omega),
    writeField_out _ _ _ _ _ (by omega) (by omega) (by omega),
    writeField_out _ _ _ _ _ (by omega) (by omega) (by omega),
    writeField_out _ _ _ _ _ (by omega) (by omega) (by omega),
    writeField_out _ _ _ _ _ (by omega) (by omega) (by omega),
    memset_in _ _ _ _ _ hnw (by omega) (by omega)]

theorem initImage_fields (E : Env) (m : Mem) (tf : Nat) (hL : E.tfl.WF)
    (hnw : tf + E.tfl.size ≤ 4294967296) (hpage : E.PAGE_SIZE < 4294967296) :
    readField (initImage E m tf) tf E.tfl.cs = 0x1B ∧
    readField (initImage E m tf) tf E.tfl.ds = 0x23 ∧
    readField (initImage E m tf) tf E.tfl.es = 0x23 ∧
    readField (initImage E m tf) tf E.tfl.ss = 0x23 ∧
    readField (initImage E m tf) tf E.tfl.eflags = 0x200 ∧
    readField (initImage E m tf) tf E.tfl.esp = E.PAGE_SIZE ∧
    readField (initImage E m tf) tf E.tfl.eip = 0x10 := by
  obtain ⟨hin, hpw, _, _, w1, w2, w3⟩ := hL
  simp only [TfLayout.initFields, List.pairwise_cons, List.mem_cons, forall_eq_or_imp,
    List.mem_singleton, forall_eq, List.not_mem_nil, IsEmpty.forall_iff, implies_true,
    and_true, List.Pairwise.nil] at hpw
  simp only [TfLayout.initFields, List.forall_mem_cons, Field.within] at hin
  obtain ⟨_, _, ⟨cs_ds, cs_es, cs_ss, cs_efl, cs_esp, cs_eip⟩, ⟨ds_es, ds_ss, ds_efl, ds_esp, ds_eip⟩,
    ⟨es_ss, es_efl, es_esp, es_eip⟩, ⟨ss_efl, ss_esp, ss_eip⟩, ⟨efl_esp, efl_eip⟩, esp_eip⟩ := hpw
  obtain ⟨_, _, h1, h2, h3, h4, h5, h6, h7, _⟩ := hin
  have n1 : tf + E.tfl.cs.off + E.tfl.cs.width ≤ 4294967296 := by omega
  have n2 : tf + E.tfl.ds.off + E.tfl.ds.width ≤ 4294967296 := by omega
  have n3 : tf + E.tfl.es.off + E.tfl.es.width ≤ 4294967296 := by omega
  have n4 : tf + E.tfl.ss.off + E.tfl.ss.width ≤ 4294967296 := by omega
  have n5 : tf + E.tfl.eflags.off + E.tfl.eflags.width ≤ 4294967296 := by omega
  have n6 : tf + E.tfl.esp.off + E.tfl.esp.width ≤ 4294967296 := by omega
  have n7 : tf + E.tfl.eip.off + E.tfl.eip.width ≤ 4294967296 := by omega
  unfold initImage
  refine ⟨?_, ?_, ?_, ?_, ?_, ?_, ?_⟩
  · rw [readField_writeField_disj _ _ _ _ _ n1 n7 cs_eip,
      readField_writeField_disj _ _ _ _ _ n1 n6 cs_esp,
      readField_writeField_disj _ _ _ _ _ n1 n5 cs_efl,
      readField_writeField_disj _ _ _ _ _ n1 n4 cs_ss,
      readField_writeField_disj _ _ _ _ _ n1 n3 cs_es,
      readField_writeField_disj _ _ _ _ _ n1 n2 cs_ds,
      readField_writeField_same _ _ _ _ h1.2.1]
    exact mod_pow_of_lt _ _ h1.1 (by norm_num)
  · rw [readField_writeField_disj _ _ _ _ _ n2 n7 ds_eip,
      readField_writeField_disj _ _ _ _ _ n2 n6 ds_esp,
      readField_writeField_disj _ _ _ _ _ n2 n5 ds_efl,
      readField_writeField_disj _ _ _ _ _ n2 n4 ds_ss,
      readField_writeField_disj _ _ _ _ _ n2 n3 ds_es,
      readField_writeField_same _ _ _ _ h2.2.1]
    exact mod_pow_of_lt _ _ h2.1 (by norm_num)
  · rw [readField_writeField_disj _ _ _ _ _ n3 n7 es_eip,
      readField_writeField_disj _ _ _ _ _ n3 n6 es_esp,
      readField_writeField_disj _ _ _ _ _ n3 n5 es_efl,
      readField_writeField_disj _ _ _ _ _ n3 n4 es_ss,
      readField_writeField_same _ _ _ _ h3.2.1]
    exact mod_pow_of_lt _ _ h3.1 (by norm_num)
  · rw [readField_writeField_disj _ _ _ _ _ n4 n7 ss_eip,
      readField_writeField_disj _ _ _ _ _ n4 n6 ss_esp,
      readField_writeField_disj _ _ _ _ _ n4 n5 ss_efl,
      readField_writeField_same _ _ _ _ h4.2.1]
    exact mod_pow_of_lt _ _ h4.1 (by norm_num)
  · rw [readField_writeField_disj _ _ _ _ _ n5 n7 efl_eip,
      readField_writeField_disj _ _ _ _ _ n5 n6 efl_esp,
      readField_writeField_same _ _ _ _ h5.2.1, w2]
    norm_num
  · rw [readField_writeField_disj _ _ _ _ _ n6 n7 esp_eip,
      readField_writeField_same _ _ _ _ h6.2.1, w3]
    exact Nat.mod_eq_of_lt (by norm_num; omega)
  · rw [readField_writeField_same _ _ _ _ h7.2.1, w1]
    norm_num

theorem initImage_other (E : Env) (m : Mem) (tf : Nat) (g : Field) (hL : E.tfl.WF)
    (hnw : tf + E.tfl.size ≤ 4294967296) (hg : g.off + g.width ≤ E.tfl.size)
    (hd : ∀ f ∈ E.tfl.initFields, g.disjoint f) :
    readField (initImage E m tf) tf g = 0 := by
  unfold readField
  apply loadLE_zero
  intro i hi
  rw [add32_nowrap tf g.off (by omega), add32_nowrap _ i (by omega), Nat.add_assoc]
  apply initImage_zero E m tf (g.off + i) hL hnw (by omega)
  intro f hf
  have := hd f hf
  unfold Field.disjoint at this
  unfold Field.covers
  omega

/-- C10. When the table has an unused slot and the allocator returns a page at
`b ≠ 0` (with a well-formed trapframe layout of size `T`, `T + 24 ≤ PAGE_SIZE`,
`b + PAGE_SIZE` not beyond `2^32`, and `trapret`, `forkret` 32-bit addresses),
`setup_init_proc` returns, and the slot `k` that `create_process` returned has a
trapframe with `cs = 0x1B`, `ds = es = ss = 0x23`, `eflags = 0x200`, `esp = PAGE_SIZE`,
`eip = 0x10`, every byte outside these seven members zero (so every other member reads
0), `start = 1`, `pid = k`, `ctx->eip = forkret`, and the 4-byte word between the
context and the trapframe holds the address of `trapret`. -/
theorem setup_init_proc_image (E : Env) (s : State)
    (hfree : ∃ i, (s.procs i).used = false)
    (hb : E.halloc s.hallocCalls ≠ 0)
    (hL : E.tfl.WF)
    (hfit : E.tfl.size + 24 ≤ E.PAGE_SIZE)
    (hwrap : E.halloc s.hallocCalls + E.PAGE_SIZE ≤ 4294967296)
    (htr : E.trapret < 4294967296) (hfr : E.forkret < 4294967296) :
    ∃ (k : Fin MAX_PROC) (s1 s2 : State),
      create_process E s = .ok ((k.val : Int), s1) ∧ setup_init_proc E s = .ok s2 ∧
      readField s2.mem (s2.procs k).tf E.tfl.cs = 0x1B ∧
      readField s2.mem (s2.procs k).tf E.tfl.ds = 0x23 ∧
      readField s2.mem (s2.procs k).tf E.tfl.es = 0x23 ∧
      readField s2.mem (s2.procs k).tf E.tfl.ss = 0x23 ∧
      readField s2.mem (s2.procs k).tf E.tfl.eflags = 0x200 ∧
      readField s2.mem (s2.procs k).tf E.tfl.esp = E.PAGE_SIZE ∧
      readField s2.mem (s2.procs k).tf E.tfl.eip = 0x10 ∧
      (∀ j, j < E.tfl.size → (∀ f ∈ E.tfl.initFields, ¬ f.covers j) →
        s2.mem ((s2.procs k).tf + j) = 0) ∧
      (∀ g : Field, g.off + g.width ≤ E.tfl.size → (∀ f ∈ E.tfl.initFields, g.disjoint f) →
        readField s2.mem (s2.procs k).tf g = 0) ∧
      (s2.procs k).start = true ∧
      (s2.procs k).pid = k.val ∧
      loadLE s2.mem ((s2.procs k).ctx + CONTEXT_EIP) 4 = E.forkret ∧
      (s2.procs k).ctx + CONTEXT_SIZE + 4 = (s2.procs k).tf ∧
      loadLE s2.mem ((s2.procs k).ctx + CONTEXT_SIZE) 4 = E.trapret := by
  obtain ⟨k, hk⟩ := exists_firstFree s.procs hfree
  have hT : 0 < E.tfl.size := by
    have := hL.1 E.tfl.eax (by simp)
    unfold Field.within at this
    omega
  have hpage : E.PAGE_SIZE < 4294967296 := by omega
  obtain ⟨h1, h2, h3⟩ := carve_nowrap E (E.halloc s.hallocCalls) hT hfit hwrap
  have hnw : tfAddr E (E.halloc s.hallocCalls) + E.tfl.size ≤ 4294967296 := by omega
  obtain ⟨f1, f2, f3, f4, f5, f6, f7⟩ :=
    initImage_fields E (created E s k (E.halloc s.hallocCalls)).mem
      (tfAddr E (E.halloc s.hallocCalls)) hL hnw hpage
  refine ⟨k, _, _, create_process_ok E s k hk hb, setup_init_proc_ok E s k hk hb, ?_⟩
  simp only [initialised, Function.update_same]
  refine ⟨f1, f2, f3, f4, f5, f6, f7, ?_, ?_, trivial, trivial, ?_, ?_, ?_⟩
  · intro j hj hc
    exact initImage_zero E _ _ j hL hnw hj hc
  · intro g hg hd
    exact initImage_other E _ _ g hL hnw hg hd
  · rw [← created_ctx_eip E s k (E.halloc s.hallocCalls) hfr]
    simp only [CONTEXT_EIP]
    rw [add32_nowrap _ _ (by omega)]
    apply loadLE_agree _ _ _ _ (by omega)
    intro x hx1 hx2
    exact initImage_out E _ _ x hL hnw (by omega) (by omega)
  · simp only [CONTEXT_SIZE]; omega
  · rw [← created_ret E s k (E.halloc s.hallocCalls) hT hfit hwrap htr]
    have : ctxAddr E (E.halloc s.hallocCalls) + CONTEXT_SIZE = retAddr E (E.halloc s.hallocCalls) := by
      simp only [CONTEXT_SIZE]; omega
    rw [this]
    apply loadLE_agree _ _ _ _ (by omega)
    intro x hx1 hx2
    exact initImage_out E _ _ x hL hnw (by omega) (by omega)

/-- Instance of C10: the init process set up at boot in `exEnv`. -/
theorem setup_init_proc_image_witness :
    ∃ (k : Fin MAX_PROC) (s1 s2 : State),
      create_process exEnv exBoot = .ok ((k.val : Int), s1) ∧
      setup_init_proc exEnv exBoot = .ok s2 ∧
      readField s2.mem (s2.procs k).tf exEnv.tfl.cs = 0x1B ∧
      readField s2.mem (s2.procs k).tf exEnv.tfl.ds = 0x23 ∧
      readField s2.mem (s2.procs k).tf exEnv.tfl.es = 0x23 ∧
      readField s2.mem (s2.procs k).tf exEnv.tfl.ss = 0x23 ∧
      readField s2.mem (s2.procs k).tf exEnv.tfl.eflags = 0x200 ∧
      readField s2.mem (s2.procs k).tf exEnv.tfl.esp = exEnv.PAGE_SIZE ∧
      readField s2.mem (s2.procs k).tf exEnv.tfl.eip = 0x10 ∧
      (∀ j, j < exEnv.tfl.size → (∀ f ∈ exEnv.tfl.initFields, ¬ f.covers j) →
        s2.mem ((s2.procs k).tf + j) = 0) ∧
      (∀ g : Field, g.off + g.width ≤ exEnv.tfl.size →
        (∀ f ∈ exEnv.tfl.initFields, g.disjoint f) →
        readField s2.mem (s2.procs k).tf g = 0) ∧
      (s2.procs k).start = true ∧
      (s2.procs k).pid = k.val ∧
      loadLE s2.mem ((s2.procs k).ctx + CONTEXT_EIP) 4 = exEnv.forkret ∧
      (s2.procs k).ctx + CONTEXT_SIZE + 4 = (s2.procs k).tf ∧
      loadLE s2.mem ((s2.procs k).ctx + CONTEXT_SIZE) 4 = exEnv.trapret :=
  setup_init_proc_image exEnv exBoot ⟨0, by decide⟩ (by decide) (by decide) (by decide)
    (by decide) (by decide) (by decide)

end Kernel
